import Mathlib

/-!
Shallow embedding of the ts-jest transformer core:
the dependency-graph builder (`TsCompiler.getResolvedModules`,
`TsCompiler._getImportedModulePaths` in src/legacy/compiler/ts-compiler.ts),
the cache-key composer (`TsJestTransformer.getCacheKey`), the session
registry (`TsJestTransformer._configsFor`), the in-memory compilation
session (`TsCompiler._updateMemoryCache`, `TsCompiler.getCompiledOutput`)
and the transformer entry points (`process`, `processAsync`,
`processWithTs`).

External collaborators (the TypeScript compiler API, the filesystem,
babel-jest, the diagnostics policy) are modelled as explicit data:
functions and association lists, so that every definition is executable.
-/

namespace TsJest

/-- Cache-key element separator, `CACHE_KEY_EL_SEPARATOR = '\x00'` in the source. -/
def CACHE_KEY_EL_SEPARATOR : String := "\x00"

/-- Result of `ts.resolveModuleName` as used by the source: the resolved
absolute file name plus the external-library flag. -/
structure ResolvedModule where
  resolvedFileName : String
  isExternalLibraryImport : Bool
deriving DecidableEq, Repr

/-- Model of the TypeScript syntactic/resolution API used by the
dependency-graph builder: `preProcess` lists the import specifiers found in
a file content (`ts.preProcessFile`), `resolve` resolves a specifier
against a containing file (`ts.resolveModuleName`), returning `none` when
the lookup fails. -/
structure ImportEnv where
  preProcess : String → List String
  resolve : String → String → Option ResolvedModule

/-- File metadata visible to the transformer: text content and the
modification time. JS exposes `statSync(p).mtimeMs.toString()`; since
number-to-string is injective on JS numbers, the modification time is
modelled directly as its decimal string form. -/
structure FileInfo where
  content : String
  mtimeMs : String
deriving DecidableEq, Repr

/-- The on-disk filesystem at call time, as an association list from
absolute paths to file info. -/
structure FileSystem where
  files : List (String × FileInfo)
deriving DecidableEq, Repr

def FileSystem.lookup (fs : FileSystem) (p : String) : Option FileInfo :=
  fs.files.lookup p

/-- Model of `fs.existsSync`. -/
def FileSystem.existsSync (fs : FileSystem) (p : String) : Bool :=
  (fs.lookup p).isSome

/-- Model of `ts.sys.readFile`: `none` when the file is missing. -/
def FileSystem.readFile (fs : FileSystem) (p : String) : Option String :=
  (fs.lookup p).map (fun i => i.content)

/-- Model of `statSync(p).mtimeMs.toString()`: `none` models the thrown
`ENOENT` when the file is missing. -/
def FileSystem.statMtime (fs : FileSystem) (p : String) : Option String :=
  (fs.lookup p).map (fun i => i.mtimeMs)

/-- The path/content projection of a filesystem: two filesystems with equal
views agree on existence and content of every file and can differ only in
modification times. -/
def FileSystem.contentView (fs : FileSystem) : List (String × String) :=
  fs.files.map (fun kv => (kv.1, kv.2.content))

/-- Model of `path.normalize` restricted to the already-normalized POSIX
absolute paths that Jest hands to the transformer. -/
def pathNormalize (p : String) : String := p

/-- The Jest runtime `cacheFS`, an in-memory path-to-content map. -/
abbrev CacheFS : Type := List (String × String)

/-- Model of `TsCompiler._getFileContentFromCache` (ts-compiler.ts:414-424):
read the runtime cache, fall back to the filesystem when the cached value
is absent or empty (the source tests JS truthiness, so an empty cached
string also falls through). The memoizing write-back is elided: under an
unchanged filesystem it stores exactly the value any later lookup would
recompute. -/
def getFileContentFromCache (cacheFS : CacheFS) (fs : FileSystem) (filePath : String) :
    Option String :=
  let normalizedFilePath := pathNormalize filePath
  match List.lookup normalizedFilePath cacheFS with
  | some c => if c = "" then fs.readFile normalizedFilePath else some c
  | none => fs.readFile normalizedFilePath

/-- Model of `TsCompiler._getImportedModulePaths` (ts-compiler.ts:429-441):
map each import specifier to its resolved file name, replace failed
resolutions and external-library resolutions by the empty string, and
filter the empty strings out. -/
def getImportedModulePaths (env : ImportEnv) (resolvedFileContent : String)
    (containingFile : String) : List String :=
  ((env.preProcess resolvedFileContent).map (fun importedFile =>
      match env.resolve importedFile containingFile with
      | some resolvedModule =>
          if resolvedModule.isExternalLibraryImport then "" else resolvedModule.resolvedFileName
      | none => "")).filter (fun resolvedFileName => resolvedFileName ≠ "")

/-- Helper for `dedupKeepFirst`: keep the elements not yet seen, recording
seen elements in insertion order. -/
def dedupKeepFirstAux (seen : List String) : List String → List String
  | [] => []
  | a :: as =>
    if seen.contains a then dedupKeepFirstAux seen as
    else a :: dedupKeepFirstAux (seen ++ [a]) as

/-- Model of `Array.from(new Set(xs))` (ts-compiler.ts:141): deduplicate
keeping the first occurrence of each element, in insertion order. -/
def dedupKeepFirst (l : List String) : List String :=
  dedupKeepFirstAux [] l

/-- One step of the `forEach` body in `getResolvedModules`
(ts-compiler.ts:148-155): filter the visited entry's direct imports
against the whole accumulated list, then append the surviving batch. -/
def resolvedModulesStep (env : ImportEnv) (cacheFS : CacheFS) (fs : FileSystem)
    (acc : List String) (importedModulePath : String) : List String :=
  let resolvedFileContent := (getFileContentFromCache cacheFS fs importedModulePath).getD ""
  acc ++ (getImportedModulePaths env resolvedFileContent importedModulePath).filter
    (fun modulePath => ¬ acc.contains modulePath)

/-- Model of `TsCompiler.getResolvedModules` (ts-compiler.ts:133-158).
The source seeds an array with the deduplicated direct imports and then
calls `Array.prototype.forEach` on it while pushing into the same array;
per the ECMAScript specification `forEach` fixes the element range before
the first callback, so only the original direct imports are ever visited
and the appended paths are never expanded. The fold below iterates
exactly the seed list while threading the growing accumulator. A file
whose content cannot be read is modelled as having no imports (the
original would crash inside `ts.preProcessFile`; all theorems below use
it only where resolved files exist). -/
def getResolvedModules (env : ImportEnv) (cacheFS : CacheFS) (fs : FileSystem)
    (fileContent fileName : String) : List String :=
  let importedModulePaths := dedupKeepFirst (getImportedModulePaths env fileContent fileName)
  List.foldl (resolvedModulesStep env cacheFS fs) importedModulePaths importedModulePaths

/-- The deduplicated direct imports seeding `getResolvedModules`
(ts-compiler.ts:141). -/
def directImportPaths (env : ImportEnv) (fileContent fileName : String) : List String :=
  dedupKeepFirst (getImportedModulePaths env fileContent fileName)

/-- The direct imports of an already-resolved module path, read through
the content cache (the batch appended when `getResolvedModules` visits
that path). -/
def expandedImports (env : ImportEnv) (cacheFS : CacheFS) (fs : FileSystem)
    (p : String) : List String :=
  getImportedModulePaths env ((getFileContentFromCache cacheFS fs p).getD "") p

/-- Abstract form of `resolvedModulesStep`: append the batch `f p`,
filtered against the accumulated list. -/
def growStep (f : String → List String) (acc : List String) (p : String) : List String :=
  acc ++ (f p).filter (fun m => ¬ acc.contains m)

/-! ### Configuration set and transform options -/

/-- Module kinds referenced by the source (`ts.ModuleKind`). -/
inductive ModuleKind
  | commonjs
  | es2015
  | esnext
  | node16
  | nodenext
deriving DecidableEq, Repr

/-- Model of `isModernNodeModuleKind` (src/transpilers/typescript/transpile-module,
not under src/): true exactly for the `Node16`/`NodeNext` module kinds. -/
def isModernNodeModuleKind (m : Option ModuleKind) : Bool :=
  m = some ModuleKind.node16 || m = some ModuleKind.nodenext

/-- The compiler-option fields the embedded code inspects: `module`
(absent when the tsconfig leaves it unset), `allowJs` and `sourceMap`. -/
structure CompilerOptionsM where
  module : Option ModuleKind
  allowJs : Bool
  sourceMap : Bool
deriving DecidableEq, Repr

/-- Modelled from the spec: `ConfigSet` (src/legacy/config/config-set.ts is
not under src/) supplies the merged configuration surface the transformer
and compiler consult: project root, isolated-modules switch, the
diagnostics cache directory, the user-configured content-stringification
predicate, the optional babel-jest pass, the ESM switch, parsed compiler
options and file list, the per-file diagnostics filter and the
diagnostics policy (`raiseDiagnostics`), which either throws with a
message (`some msg`) or merely logs (`none`). -/
structure ConfigSet where
  rootDir : String
  isolatedModules : Bool
  tsCacheDir : Option String
  shouldStringifyContent : String → Bool
  babelJestTransformer : Option (String → String)
  useESM : Bool
  parsedOptions : CompilerOptionsM
  parsedFileNames : List String
  shouldReportDiagnostics : String → Bool
  raisePolicy : List String → String → Option String

/-- The slice of Jest's transform options that the embedded code reads. -/
structure TransformOptions where
  instrument : Bool
  supportsStaticESM : Bool
  transformerConfigUseESM : Bool
deriving DecidableEq, Repr

/-! ### Cache key composer (`TsJestTransformer.getCacheKey`) -/

/-- Dependency-graph record per file: last-seen content and the resolved
reachable set (`DepGraphInfo` in src/types, not under src/; fields as used
by the transformer). -/
structure DepGraphInfo where
  fileContent : String
  resolvedModuleNames : List String
deriving DecidableEq, Repr

/-- Model of `Map.prototype.set`: replace the value under an existing key
in place, otherwise append in insertion order. -/
def setAssoc {α : Type} (l : List (String × α)) (k : String) (v : α) : List (String × α) :=
  if (List.lookup k l).isSome then
    l.map (fun kv => if kv.1 = k then (k, v) else kv)
  else
    l ++ [(k, v)]

/-- The fixed leading element sequence of the cache key
(transformer lines 314-326). -/
def cacheKeyBaseElements (transformCfgStr rootDir : String)
    (instrument supportsStaticESM : Bool) (fileContent filePath : String) : List String :=
  [transformCfgStr, CACHE_KEY_EL_SEPARATOR,
   rootDir, CACHE_KEY_EL_SEPARATOR,
   "instrument:" ++ (if instrument then "on" else "off"), CACHE_KEY_EL_SEPARATOR,
   "supportsStaticESM:" ++ (if supportsStaticESM then "on" else "off"), CACHE_KEY_EL_SEPARATOR,
   fileContent, CACHE_KEY_EL_SEPARATOR,
   filePath]

/-- The dependency-graph fast-path test (transformer line 329):
`this._depGraphs.get(filePath)?.fileContent === fileContent`. -/
def depGraphHit (depGraphs : List (String × DepGraphInfo))
    (fileContent filePath : String) : Bool :=
  match List.lookup filePath depGraphs with
  | some info => info.fileContent == fileContent
  | none => false

/-- The resolved module names used by the cache key (transformer lines
327-352): on a dep-graph hit for the same content, the stored reachable
set filtered to files that still exist; otherwise a fresh
`getResolvedModules` computation. -/
def cacheKeyResolvedNames (env : ImportEnv) (fs : FileSystem)
    (depGraphs : List (String × DepGraphInfo)) (cacheFS : CacheFS)
    (fileContent filePath : String) : List String :=
  match List.lookup filePath depGraphs with
  | some info =>
    if info.fileContent = fileContent then
      info.resolvedModuleNames.filter (fun moduleName => fs.existsSync moduleName)
    else
      getResolvedModules env cacheFS fs fileContent filePath
  | none => getResolvedModules env cacheFS fs fileContent filePath

/-- The per-dependency cache-key elements (transformer lines 353-360):
separator, path, separator, modification time, for each resolved module;
`none` models the `ENOENT` thrown by `statSync` on a missing file. -/
def cacheKeyDepElements (fs : FileSystem) : List String → Option (List String)
  | [] => some []
  | moduleName :: rest =>
    match fs.statMtime moduleName, cacheKeyDepElements fs rest with
    | some mtime, some tail =>
        some ([CACHE_KEY_EL_SEPARATOR, moduleName, CACHE_KEY_EL_SEPARATOR, mtime] ++ tail)
    | _, _ => none

/-- Modelled from the spec: `sha1` (src/utils/sha1 is not under src/)
produces "an opaque fixed-size digest" of the ordered element sequence,
with the stated invariant that identical inputs always yield identical
keys and any change to an element must change the key; the collision-free
hash is therefore modelled as the injective digest consisting of the
element sequence itself. -/
def sha1 (elements : List String) : List String := elements

/-- Model of `TsJestTransformer.getCacheKey` (transformer lines 307-364),
returning the digest together with the updated dependency-graph state, or
an error for the `ENOENT` thrown when a freshly resolved module has
disappeared before `statSync`. -/
def getCacheKey (configs : ConfigSet) (transformCfgStr : String)
    (depGraphs : List (String × DepGraphInfo)) (env : ImportEnv) (fs : FileSystem)
    (fileContent filePath : String) (instrument supportsStaticESM : Bool)
    (cacheFS : CacheFS) :
    Except String (List String × List (String × DepGraphInfo)) :=
  let base := cacheKeyBaseElements transformCfgStr configs.rootDir instrument
    supportsStaticESM fileContent filePath
  if !configs.isolatedModules && configs.tsCacheDir.isSome then
    let resolvedModuleNames := cacheKeyResolvedNames env fs depGraphs cacheFS fileContent filePath
    let newDepGraphs :=
      if depGraphHit depGraphs fileContent filePath then depGraphs
      else setAssoc depGraphs filePath ⟨fileContent, resolvedModuleNames⟩
    match cacheKeyDepElements fs resolvedModuleNames with
    | some depElements => Except.ok (sha1 (base ++ depElements), newDepGraphs)
    | none => Except.error filePath
  else
    Except.ok (sha1 base, depGraphs)

/-! ### Session registry (`TsJestTransformer._configsFor`) -/

/-- One record of the process-wide `_cachedConfigSets` list. A live Jest
configuration object is modelled by a reference identifier (`Nat`);
`configSetId` stands for the `{configSet, compiler, depGraphs}` triple
created together with the record, i.e. the compilation session identity. -/
structure CachedConfigSet where
  jestConfigRef : Nat
  jestConfigSerialized : String
  configSetId : Nat
deriving DecidableEq, Repr

/-- Back-patch the first record whose serialized form matches, installing
the live object reference (transformer line 98). -/
def backpatchFirst : List CachedConfigSet → String → Nat → List CachedConfigSet
  | [], _, _ => []
  | cs :: rest, serialized, ref =>
    if cs.jestConfigSerialized == serialized then
      { cs with jestConfigRef := ref } :: rest
    else
      cs :: backpatchFirst rest serialized ref

/-- Model of `TsJestTransformer._configsFor` (transformer lines 76-145).
`serializeOf` maps a live configuration object to its serialized form
(`stringify(config)`); lookup is first by reference, then by serialized
form (back-patching the matched record), and on a miss a fresh session is
appended, identified by the current registry length. Returns the session
identity and the new registry. -/
def configsFor (serializeOf : Nat → String) (registry : List CachedConfigSet)
    (configRef : Nat) : Nat × List CachedConfigSet :=
  match registry.find? (fun cs => cs.jestConfigRef == configRef) with
  | some ccs => (ccs.configSetId, registry)
  | none =>
    let serializedJestCfg := serializeOf configRef
    match registry.find? (fun cs => cs.jestConfigSerialized == serializedJestCfg) with
    | some serializedCcs =>
        (serializedCcs.configSetId, backpatchFirst registry serializedJestCfg configRef)
    | none =>
        (registry.length, registry ++ [⟨configRef, serializedJestCfg, registry.length⟩])

/-- Registry invariant maintained by `configsFor` from the empty registry:
session identities are exactly `0..n-1` in insertion order, serialized
forms are pairwise distinct, and each record's serialized form is the
serialization of its live reference. -/
def RegistryInv (serializeOf : Nat → String) (registry : List CachedConfigSet) : Prop :=
  registry.map (fun cs => cs.configSetId) = List.range registry.length
  ∧ (registry.map (fun cs => cs.jestConfigSerialized)).Nodup
  ∧ ∀ cs ∈ registry, cs.jestConfigSerialized = serializeOf cs.jestConfigRef

/-- The session identity the registry currently associates to a serialized
configuration form, if any. -/
def sessionOf (registry : List CachedConfigSet) (serialized : String) : Option Nat :=
  (registry.find? (fun cs => cs.jestConfigSerialized == serialized)).map
    (fun cs => cs.configSetId)

/-! ### File-kind predicates (src/constants, not under src/) -/

/-- Suffix test on strings, computed over the character lists. -/
def strEndsWith (s suffix : String) : Bool :=
  suffix.data.isSuffixOf s.data

/-- Split a character list on a separator character. -/
def splitOnChar (sep : Char) : List Char → List (List Char)
  | [] => [[]]
  | c :: rest =>
    let r := splitOnChar sep rest
    if c = sep then [] :: r
    else
      match r with
      | [] => [[c]]
      | h :: t => (c :: h) :: t

/-- Modelled from the spec: `DECLARATION_TYPE_EXT` (src/constants, not
under src/) is the declaration extension `.d.ts`. -/
def isDefinitionFile (p : String) : Bool := strEndsWith p ".d.ts"

/-- Modelled from the spec: `JS_JSX_REGEX` matches the plain-script
extensions `.js`/`.jsx`. -/
def isJsJsx (p : String) : Bool := strEndsWith p ".js" || strEndsWith p ".jsx"

/-- Modelled from the spec: `TS_TSX_REGEX` matches the strictly-typed
extensions `.ts`/`.tsx`. -/
def isTsTsx (p : String) : Bool := strEndsWith p ".ts" || strEndsWith p ".tsx"

/-! ### Compilation session (`TsCompiler`, full-service mode) -/

/-- The in-memory overlay of the compilation session: per-file version
numbers, per-file contents, and the project version
(ts-compiler.ts fields `_fileVersionCache`, `_fileContentCache`,
`_projectVersion`). -/
structure CompilerState where
  fileVersionCache : List (String × Nat)
  fileContentCache : List (String × String)
  projectVersion : Nat
deriving DecidableEq, Repr

/-- Model of `TsCompiler._isFileInCache` (ts-compiler.ts:464-473). -/
def isFileInCache (st : CompilerState) (fileName : String) : Bool :=
  (List.lookup fileName st.fileContentCache).isSome
    && (match List.lookup fileName st.fileVersionCache with
        | some v => v != 0
        | none => false)

/-- Model of `TsCompiler._updateMemoryCache` (ts-compiler.ts:478-510). -/
def updateMemoryCache (parsedFileNames : List String) (st : CompilerState)
    (contents fileName : String) (isModuleKindTheSame : Bool) : CompilerState :=
  let hit := isFileInCache st fileName
  if !hit then
    { st with
      fileVersionCache := setAssoc st.fileVersionCache fileName 1
      projectVersion := st.projectVersion + 1 }
  else
    let prevVersion := (List.lookup fileName st.fileVersionCache).getD 0
    let previousContents := List.lookup fileName st.fileContentCache
    let contentChanged := previousContents != some contents
    let st1 :=
      if contentChanged then
        { st with
          fileVersionCache := setAssoc st.fileVersionCache fileName (prevVersion + 1)
          fileContentCache := setAssoc st.fileContentCache fileName contents }
      else st
    if contentChanged || (!parsedFileNames.contains fileName || !isModuleKindTheSame) then
      { st1 with projectVersion := st.projectVersion + 1 }
    else st1

/-- Model of the `getScriptSnapshot` host callback effect for one file
(ts-compiler.ts:359-386): on a cache miss, read the content from the
overlay, else the Jest runtime cache, else the filesystem, memoizing it
into the overlay with version 1. -/
def getScriptSnapshot (cacheFS : CacheFS) (fs : FileSystem) (st : CompilerState)
    (fileName : String) : CompilerState :=
  let normalizedFileName := pathNormalize fileName
  if isFileInCache st normalizedFileName then st
  else
    match ((List.lookup normalizedFileName st.fileContentCache).orElse
        (fun _ => (List.lookup normalizedFileName cacheFS).orElse
          (fun _ => fs.readFile normalizedFileName))) with
    | some fileContent =>
      { st with
        fileContentCache := setAssoc st.fileContentCache normalizedFileName fileContent
        fileVersionCache := setAssoc st.fileVersionCache normalizedFileName 1 }
    | none => st

/-- Emit result shape of the language service
(`EmitOutput`): the skip flag and the emitted texts
(`[js]` or `[map, js]` when source maps are on). -/
structure EmitOutput where
  emitSkipped : Bool
  outputFiles : List String
deriving DecidableEq, Repr

/-- Model of the TypeScript language service as a deterministic function
of the project content overlay it can observe through snapshots: emitted
output and semantic/syntactic diagnostics per file. The service itself is
an external collaborator (the pluggable compiler module). -/
structure LangServiceModel where
  emit : List (String × String) → String → EmitOutput
  semanticDiags : List (String × String) → String → List String
  syntacticDiags : List (String × String) → String → List String

/-- Model of `TsCompiler.getDiagnostics` (ts-compiler.ts:515-530):
semantic then syntactic diagnostics, only when the reporting policy
selects the file. -/
def getDiagnostics (configs : ConfigSet) (ls : LangServiceModel)
    (view : List (String × String)) (fileName : String) : List String :=
  if configs.shouldReportDiagnostics fileName then
    ls.semanticDiags view fileName ++ ls.syntacticDiags view fileName
  else []

/-- Compile options handed by the transformer to the compiler
(`TsJestCompileOptions`): the shared dependency graphs, the ESM capability
flag and the watch-mode flag. -/
structure CompileOptions where
  depGraphs : List (String × DepGraphInfo)
  supportsStaticESM : Bool
  watchMode : Bool

/-- Model of `fixupCompilerOptionsForModuleKind`
(ts-compiler.ts:160-191) restricted to the fields the claims observe:
non-ESM mode forces CommonJS; ESM mode defaults the module kind to ESNext
and maps modern node kinds to ESNext. -/
def fixupCompilerOptionsForModuleKind (opts : CompilerOptionsM) (isEsm : Bool) :
    CompilerOptionsM :=
  if !isEsm then
    { opts with module := some ModuleKind.commonjs }
  else
    let moduleKind := opts.module.getD ModuleKind.esnext
    if isModernNodeModuleKind opts.module then
      { opts with module := some ModuleKind.esnext }
    else
      { opts with module := some moduleKind }

/-- POSIX `path.basename`. -/
def basename (p : String) : String :=
  String.mk ((splitOnChar (Char.ofNat 47) p.data).getLastD p.data)

/-- Modelled from the spec: `updateOutput` (src/legacy/compiler/compiler-utils,
not under src/) finalizes emitted code, inlining the source map when one
is present; the claims only depend on it deterministically combining its
inputs. -/
def updateOutput (outputText : String) (fileName : String)
    (sourceMapText : Option String) : String :=
  match sourceMapText with
  | some sourceMap => outputText ++ "\n//# sourceMap " ++ fileName ++ " " ++ sourceMap
  | none => outputText

/-- Compiled output of one request: code plus the optional diagnostics
list (`CompiledOutput` in src/types). -/
structure CompiledOutput where
  code : String
  diagnostics : Option (List String)
deriving DecidableEq, Repr

/-- The errors `getCompiledOutput` can throw, each naming the offending
file (`Errors.CannotProcessFile`, `Errors.UnableToRequireDefinitionFile`)
or carrying the message of a raised diagnostic. -/
inductive CompileError
  | cannotProcessFile (file : String)
  | unableToRequireDefinitionFile (file : String)
  | raisedDiagnostics (message : String)
deriving DecidableEq, Repr

/-- Full observable outcome of one full-service compile call: the result
or thrown error, the session state afterwards, the watch-mode re-checked
files with their recomputed diagnostics, and the warnings logged. -/
structure RunOut where
  res : Except CompileError CompiledOutput
  st : CompilerState
  reChecked : List (String × List String)
  warnings : List String
deriving Repr

/-- The watch-mode dependents loop (ts-compiler.ts:222-241): for every
dependency-graph entry whose recorded reachable set contains the changed
file and which the reporting policy selects, refresh its overlay entry and
recompute its semantic and syntactic diagnostics, routing them through the
diagnostics policy (which may throw). Returns the thrown message if any,
the final state, and the re-checked files with their diagnostics. -/
def watchReCheck (configs : ConfigSet) (ls : LangServiceModel) (cacheFS : CacheFS)
    (fs : FileSystem) (fileName : String) :
    List (String × DepGraphInfo) → CompilerState → List (String × List String) →
    Option String × CompilerState × List (String × List String)
  | [], st, acc => (none, st, acc)
  | (fileToReTypeCheck, info) :: rest, st, acc =>
    if (info.resolvedModuleNames.map pathNormalize).contains fileName
        && configs.shouldReportDiagnostics fileToReTypeCheck then
      let st1 := updateMemoryCache configs.parsedFileNames st
        ((getFileContentFromCache cacheFS fs fileToReTypeCheck).getD "") fileToReTypeCheck true
      let importedModulesDiagnostics :=
        ls.semanticDiags st1.fileContentCache fileToReTypeCheck
          ++ ls.syntacticDiags st1.fileContentCache fileToReTypeCheck
      let acc1 := acc ++ [(fileToReTypeCheck, importedModulesDiagnostics)]
      match configs.raisePolicy importedModulesDiagnostics fileName with
      | some e => (some e, st1, acc1)
      | none => watchReCheck configs ls cacheFS fs fileName rest st1 acc1
    else
      watchReCheck configs ls cacheFS fs fileName rest st acc

/-- The session state reached just before emitting `fileName`: the overlay
update for the compiled file followed by the language-service snapshot
read of that file. -/
def compileEmitState (configs : ConfigSet) (cacheFS : CacheFS) (fs : FileSystem)
    (st : CompilerState) (fileContent fileName : String) (isModuleKindTheSame : Bool) :
    CompilerState :=
  getScriptSnapshot cacheFS fs
    (updateMemoryCache configs.parsedFileNames st fileContent fileName isModuleKindTheSame)
    fileName

/-- The diagnostics-raising phase of a full-service compile
(ts-compiler.ts:217-243): when ESM mode is off and the compiled file's
diagnostics list is non-empty, route it through the policy and, in watch
mode, run the dependents loop. -/
def raisePhase (configs : ConfigSet) (ls : LangServiceModel) (cacheFS : CacheFS)
    (fs : FileSystem) (st : CompilerState) (fileName : String)
    (isEsmMode : Bool) (diagnostics : List String) (options : CompileOptions) :
    Option String × CompilerState × List (String × List String) :=
  if !isEsmMode && !diagnostics.isEmpty then
    match configs.raisePolicy diagnostics fileName with
    | some e => (some e, st, [])
    | none =>
      if options.watchMode then
        watchReCheck configs ls cacheFS fs fileName options.depGraphs st []
      else (none, st, [])
  else (none, st, [])

/-- Model of `TsCompiler.getCompiledOutput` in full-service mode
(ts-compiler.ts:193-273, the `this._languageService` branch): the allowJs
early return, the overlay update and emit, the diagnostics phase, the
emit-skipped and empty-output error handling, and the final output
selection. -/
def getCompiledOutputLS (configs : ConfigSet) (ls : LangServiceModel)
    (cacheFS : CacheFS) (fs : FileSystem) (st : CompilerState)
    (fileContent fileName : String) (options : CompileOptions) : RunOut :=
  let isEsmMode := configs.useESM && options.supportsStaticESM
  let compilerOptions := fixupCompilerOptionsForModuleKind configs.parsedOptions isEsmMode
  let moduleKind := configs.parsedOptions.module
  let currentModuleKind := compilerOptions.module
  if isJsJsx fileName && !compilerOptions.allowJs then
    { res := Except.ok ⟨fileContent, none⟩, st := st, reChecked := [],
      warnings := ["GotJsFileButAllowJsFalse " ++ fileName] }
  else
    let st2 := compileEmitState configs cacheFS fs st fileContent fileName
      (currentModuleKind == moduleKind)
    let output := ls.emit st2.fileContentCache fileName
    let diagnostics := getDiagnostics configs ls st2.fileContentCache fileName
    match raisePhase configs ls cacheFS fs st2 fileName isEsmMode diagnostics options with
    | (some e, st3, acc) =>
      { res := Except.error (CompileError.raisedDiagnostics e), st := st3,
        reChecked := acc, warnings := [] }
    | (none, st3, acc) =>
      if output.emitSkipped then
        if isTsTsx fileName then
          { res := Except.error (CompileError.cannotProcessFile fileName), st := st3,
            reChecked := acc, warnings := [] }
        else
          { res := Except.ok ⟨fileContent, none⟩, st := st3, reChecked := acc,
            warnings := ["CannotProcessFileReturnOriginal " ++ fileName] }
      else if output.outputFiles.isEmpty then
        { res := Except.error (CompileError.unableToRequireDefinitionFile (basename fileName)),
          st := st3, reChecked := acc, warnings := [] }
      else
        let code :=
          if compilerOptions.sourceMap then
            updateOutput ((output.outputFiles.getD 1 "")) fileName
              (some (output.outputFiles.getD 0 ""))
          else
            updateOutput ((output.outputFiles.getD 0 "")) fileName none
        { res := Except.ok ⟨code, some diagnostics⟩, st := st3, reChecked := acc,
          warnings := [] }

/-! ### Transformer entry points (`process`, `processAsync`, `processWithTs`) -/

/-- Output shape handed back to Jest (`TransformedSource`). -/
structure TransformedSource where
  code : String
deriving DecidableEq, Repr

/-- Modelled from the spec: `stringify` (src/utils, not under src/) is the
JSON serialization of the source text; escaping details are irrelevant to
the claims, so it is modelled as quoting. -/
def stringify (s : String) : String := "\"" ++ s ++ "\""

/-- Model of `isNodeModule` (transformer lines 39-41): the normalized path
split on the separator contains a `node_modules` segment. -/
def isNodeModule (filePath : String) : Bool :=
  (splitOnChar (Char.ofNat 47) (pathNormalize filePath).data).contains "node_modules".data

/-- Result of `ts.transpileModule` as used by the transformer. -/
structure TranspileOut where
  outputText : String
  sourceMapText : Option String
deriving DecidableEq, Repr

/-- Model of `TsJestTransformer.processWithTs` (transformer lines 210-269).
The session compiler and the single-file transpiler are passed as
functions: `compiler content path` models
`this._compiler.getCompiledOutput` and `tsTranspileModule content module path`
models `ts.transpileModule` with the forced module kind. -/
def processWithTs (configs : ConfigSet)
    (compiler : String → String → CompiledOutput)
    (tsTranspileModule : String → Option ModuleKind → String → TranspileOut)
    (transformOptions : TransformOptions) (sourceText sourcePath : String) : CompiledOutput :=
  let shouldStringifyContent := configs.shouldStringifyContent sourcePath
  let isJsFile := isJsJsx sourcePath
  let isTsFile := !isDefinitionFile sourcePath && isTsTsx sourcePath
  if shouldStringifyContent then
    { code := "module.exports=" ++ stringify sourceText, diagnostics := none }
  else if isDefinitionFile sourcePath then
    { code := "", diagnostics := none }
  else if isJsFile || isTsFile then
    if isJsFile && isNodeModule sourcePath then
      let moduleKind :=
        if transformOptions.supportsStaticESM && transformOptions.transformerConfigUseESM then
          some ModuleKind.esnext
        else
          some ModuleKind.commonjs
      let transpiledResult := tsTranspileModule sourceText moduleKind sourcePath
      { code := updateOutput transpiledResult.outputText sourcePath transpiledResult.sourceMapText,
        diagnostics := none }
    else
      compiler sourceText sourcePath
  else
    { code := sourceText, diagnostics := none }

/-- Model of `TsJestTransformer.runTsJestHook` (transformer lines 271-298):
apply the optional `afterProcess` hook; a falsy hook result keeps the
compiled output. -/
def runTsJestHook (hook : Option (TransformedSource → Option TransformedSource))
    (compiledOutput : TransformedSource) : TransformedSource :=
  match hook with
  | some afterProcess => (afterProcess compiledOutput).getD compiledOutput
  | none => compiledOutput

/-- Model of `TsJestTransformer.process` (transformer lines 155-176): take
the compiled code, discard diagnostics, optionally run babel-jest (absent
when the content is stringified), then the hook. -/
def process (configs : ConfigSet)
    (compiler : String → String → CompiledOutput)
    (tsTranspileModule : String → Option ModuleKind → String → TranspileOut)
    (hook : Option (TransformedSource → Option TransformedSource))
    (transformOptions : TransformOptions) (sourceText sourcePath : String) :
    TransformedSource :=
  let babelJest :=
    if configs.shouldStringifyContent sourcePath then none
    else configs.babelJestTransformer
  let result : TransformedSource :=
    { code := (processWithTs configs compiler tsTranspileModule transformOptions
        sourceText sourcePath).code }
  let result :=
    match babelJest with
    | some babel => { code := babel result.code }
    | none => result
  runTsJestHook hook result

/-- Model of `TsJestTransformer.processAsync` (transformer lines 178-208):
identical pipeline, except that a non-empty diagnostics list from the
compile step is thrown (`createTsError`), modelled as `Except.error`
carrying the diagnostics. -/
def processAsync (configs : ConfigSet)
    (compiler : String → String → CompiledOutput)
    (tsTranspileModule : String → Option ModuleKind → String → TranspileOut)
    (hook : Option (TransformedSource → Option TransformedSource))
    (transformOptions : TransformOptions) (sourceText sourcePath : String) :
    Except (List String) TransformedSource :=
  let babelJest :=
    if configs.shouldStringifyContent sourcePath then none
    else configs.babelJestTransformer
  let processWithTsResult := processWithTs configs compiler tsTranspileModule
    transformOptions sourceText sourcePath
  let result : TransformedSource := { code := processWithTsResult.code }
  match processWithTsResult.diagnostics with
  | some (d :: ds) => Except.error (d :: ds)
  | _ =>
    let result :=
      match babelJest with
      | some babel => { code := babel result.code }
      | none => result
    Except.ok (runTsJestHook hook result)

/-! ### Concrete instances used by witnesses and counterexamples -/

/-- Import environment of a three-link chain: `A` imports `/b.ts`, whose
content `B` imports `/c.ts`, whose content `C` imports `/d.ts`. -/
def envChain : ImportEnv where
  preProcess := fun c =>
    if c = "A" then ["./b"]
    else if c = "B" then ["./c"]
    else if c = "C" then ["./d"]
    else []
  resolve := fun s _ =>
    if s = "./b" then some ⟨"/b.ts", false⟩
    else if s = "./c" then some ⟨"/c.ts", false⟩
    else if s = "./d" then some ⟨"/d.ts", false⟩
    else none

/-- Filesystem backing `envChain`. -/
def fsChain : FileSystem :=
  ⟨[("/b.ts", ⟨"B", "1"⟩), ("/c.ts", ⟨"C", "2"⟩), ("/d.ts", ⟨"D", "3"⟩)]⟩

/-- A full-service configuration with a diagnostics cache directory, as
used by the cache-key claims. -/
def configsCK : ConfigSet where
  rootDir := "/root"
  isolatedModules := false
  tsCacheDir := some "/tmp/ts-jest"
  shouldStringifyContent := fun _ => false
  babelJestTransformer := none
  useESM := false
  parsedOptions := ⟨some ModuleKind.commonjs, true, false⟩
  parsedFileNames := []
  shouldReportDiagnostics := fun _ => true
  raisePolicy := fun _ _ => none

/-- A dependency-graph state recording, for `/a.ts` with content `A`, a
reachable set containing one live path and one path that no longer exists
on `fsChain`. -/
def depGraphsStale : List (String × DepGraphInfo) :=
  [("/a.ts", ⟨"A", ["/b.ts", "/gone.ts"]⟩)]

/-- The filesystem `fsChain` after only the modification time of `/b.ts`
changed (same paths, same contents). -/
def fsChainTouched : FileSystem :=
  ⟨[("/b.ts", ⟨"B", "9"⟩), ("/c.ts", ⟨"C", "2"⟩), ("/d.ts", ⟨"D", "3"⟩)]⟩

/-- Dependency-graph state left by a first cache-key call for `/a.ts`
with content `A` over `envChain`. -/
def dgA : List (String × DepGraphInfo) :=
  [("/a.ts", ⟨"A", ["/b.ts", "/c.ts"]⟩)]

/-- The digest of that first call. -/
def keyA : List String :=
  cacheKeyBaseElements "cfg" "/root" false false "A" "/a.ts" ++
    [CACHE_KEY_EL_SEPARATOR, "/b.ts", CACHE_KEY_EL_SEPARATOR, "1",
     CACHE_KEY_EL_SEPARATOR, "/c.ts", CACHE_KEY_EL_SEPARATOR, "2"]

/-- The digest for content `Z` (which has no imports) at the same path. -/
def keyZ : List String :=
  cacheKeyBaseElements "cfg" "/root" false false "Z" "/a.ts"

/-- The digest for content `A` after `/b.ts` was touched. -/
def keyTouched : List String :=
  cacheKeyBaseElements "cfg" "/root" false false "A" "/a.ts" ++
    [CACHE_KEY_EL_SEPARATOR, "/b.ts", CACHE_KEY_EL_SEPARATOR, "9",
     CACHE_KEY_EL_SEPARATOR, "/c.ts", CACHE_KEY_EL_SEPARATOR, "2"]

/-- A language service whose emit is always skipped. -/
def lsSkip : LangServiceModel where
  emit := fun _ _ => ⟨true, []⟩
  semanticDiags := fun _ _ => []
  syntacticDiags := fun _ _ => []

/-- A language service that emits successfully but produces no output
files. -/
def lsNoOutput : LangServiceModel where
  emit := fun _ _ => ⟨false, []⟩
  semanticDiags := fun _ _ => []
  syntacticDiags := fun _ _ => []

/-- The empty compilation-session state at project version 1. -/
def stEmpty : CompilerState := ⟨[], [], 1⟩

/-- Jest runtime cache backing the compile witnesses. -/
def cfsW : CacheFS := [("/x.ts", "C"), ("/x.js", "J")]

/-- Compile options with no dependency graphs, no ESM and no watch mode. -/
def optW : CompileOptions := ⟨[], false, false⟩

/-- Session state after compiling `/x.ts` once from `stEmpty`. -/
def st2XTS : CompilerState := ⟨[("/x.ts", 1)], [("/x.ts", "C")], 2⟩

/-- Session state after compiling `/x.js` once from `stEmpty`. -/
def st2XJS : CompilerState := ⟨[("/x.js", 1)], [("/x.js", "J")], 2⟩

/-- A language service that always emits one output file and reports no
diagnostics. -/
def lsOk : LangServiceModel where
  emit := fun _ _ => ⟨false, ["out"]⟩
  semanticDiags := fun _ _ => []
  syntacticDiags := fun _ _ => []

/-- A language service that emits and reports one semantic diagnostic per
file. -/
def lsDiagW : LangServiceModel where
  emit := fun _ _ => ⟨false, ["out"]⟩
  semanticDiags := fun _ f => if f = "/x.ts" then ["Tx"] else ["Tg"]
  syntacticDiags := fun _ _ => []

/-- The full-service configuration whose tsconfig file list contains the
compiled file. -/
def configsC4 : ConfigSet := { configsCK with parsedFileNames := ["/x.ts"] }

/-- Watch-mode compile options with a dependency graph recording that
`/G.ts` reaches `/x.ts`. -/
def optWatch : CompileOptions := ⟨[("/G.ts", ⟨"g", ["/x.ts"]⟩)], false, true⟩

/-- A configuration whose content-stringification predicate matches every
path (achievable with `stringifyContentPathRegex`). -/
def configsStr : ConfigSet := { configsCK with shouldStringifyContent := fun _ => true }

/-- An abstract session compiler producing fixed code and no
diagnostics. -/
def compilerW : String → String → CompiledOutput := fun _ _ => ⟨"CC", none⟩

/-- An abstract session compiler producing fixed code and one
diagnostic. -/
def compilerDiagW : String → String → CompiledOutput := fun _ _ => ⟨"CC", some ["T2322"]⟩

/-- An abstract `ts.transpileModule` producing fixed output. -/
def transpileW : String → Option ModuleKind → String → TranspileOut := fun _ _ _ => ⟨"T", none⟩

/-- Transform options with everything off. -/
def optT : TransformOptions := ⟨false, false, false⟩

/-! ### Helper lemmas -/

theorem resolvedModulesStep_eq_growStep (env : ImportEnv) (cacheFS : CacheFS)
    (fs : FileSystem) :
    resolvedModulesStep env cacheFS fs = growStep (expandedImports env cacheFS fs) := rfl

theorem mem_growStep_of_mem (f : String → List String) (acc : List String) (p a : String)
    (h : a ∈ acc) : a ∈ growStep f acc p := by
  simp [growStep]; exact Or.inl h

theorem mem_foldl_growStep_of_mem (f : String → List String) (l : List String) :
    ∀ (acc : List String) (a : String), a ∈ acc → a ∈ l.foldl (growStep f) acc := by
  induction l with
  | nil => intro acc a h; simpa using h
  | cons p l ih =>
    intro acc a h
    simp only [List.foldl_cons]
    exact ih _ a (mem_growStep_of_mem f acc p a h)

theorem foldl_growStep_append (f : String → List String) (l : List String) :
    ∀ acc : List String, ∃ t, l.foldl (growStep f) acc = acc ++ t := by
  induction l with
  | nil => intro acc; exact ⟨[], by simp⟩
  | cons p l ih =>
    intro acc
    obtain ⟨t, ht⟩ := ih (growStep f acc p)
    refine ⟨(f p).filter (fun m => ¬ acc.contains m) ++ t, ?_⟩
    simp only [List.foldl_cons]
    rw [ht]
    simp [growStep]

theorem nodup_growStep (f : String → List String) (acc : List String) (p : String)
    (h : acc.Nodup) (hf : (f p).Nodup) : (growStep f acc p).Nodup := by
  refine List.Nodup.append h (hf.filter _) ?_
  intro a ha hb
  simp only [List.mem_filter, decide_eq_true_iff] at hb
  exact hb.2 (by simpa [List.elem_iff] using ha)

theorem nodup_foldl_growStep (f : String → List String) (l : List String)
    (hf : ∀ p ∈ l, (f p).Nodup) :
    ∀ acc : List String, acc.Nodup → (l.foldl (growStep f) acc).Nodup := by
  induction l with
  | nil => intro acc h; simpa using h
  | cons p l ih =>
    intro acc h
    simp only [List.foldl_cons]
    exact ih (fun q hq => hf q (List.mem_cons_of_mem p hq)) _
      (nodup_growStep f acc p h (hf p (List.mem_cons_self p l)))

theorem mem_foldl_growStep_of_mem_batch (f : String → List String) (l : List String) :
    ∀ (acc : List String) (p : String), p ∈ l → ∀ m ∈ f p, m ∈ l.foldl (growStep f) acc := by
  induction l with
  | nil => intro _ _ h; simp at h
  | cons q l ih =>
    intro acc p hp m hm
    simp only [List.foldl_cons]
    rcases List.mem_cons.mp hp with h | h
    · subst h
      apply mem_foldl_growStep_of_mem
      by_cases hmem : m ∈ acc
      · exact mem_growStep_of_mem f acc p m hmem
      · simp only [growStep, List.mem_append, List.mem_filter, decide_eq_true_iff]
        right
        refine ⟨hm, ?_⟩
        simpa [List.elem_iff] using hmem
    · exact ih _ p h m hm

theorem mem_foldl_growStep (f : String → List String) (l : List String) :
    ∀ (acc : List String) (a : String), a ∈ l.foldl (growStep f) acc →
      a ∈ acc ∨ ∃ p ∈ l, a ∈ f p := by
  induction l with
  | nil => intro acc a h; exact Or.inl (by simpa using h)
  | cons p l ih =>
    intro acc a h
    simp only [List.foldl_cons] at h
    rcases ih _ a h with h1 | ⟨q, hq, hfa⟩
    · simp only [growStep, List.mem_append, List.mem_filter] at h1
      rcases h1 with h1 | h1
      · exact Or.inl h1
      · exact Or.inr ⟨p, List.mem_cons_self p l, h1.1⟩
    · exact Or.inr ⟨q, List.mem_cons_of_mem p hq, hfa⟩

theorem mem_dedupKeepFirstAux (a : String) (l : List String) :
    ∀ seen : List String, a ∈ dedupKeepFirstAux seen l ↔ a ∈ l ∧ a ∉ seen := by
  induction l with
  | nil => intro seen; simp [dedupKeepFirstAux]
  | cons b bs ih =>
    intro seen
    rw [dedupKeepFirstAux]
    by_cases hb : seen.contains b
    · rw [if_pos hb]
      have hbmem : b ∈ seen := by simpa [List.elem_iff] using hb
      rw [ih]
      constructor
      · rintro ⟨h1, h2⟩
        exact ⟨List.mem_cons_of_mem b h1, h2⟩
      · rintro ⟨h1, h2⟩
        rcases List.mem_cons.mp h1 with h1 | h1
        · exact absurd hbmem (h1 ▸ h2)
        · exact ⟨h1, h2⟩
    · rw [if_neg hb]
      have hbmem : b ∉ seen := by simpa [List.elem_iff] using hb
      constructor
      · intro h
        rcases List.mem_cons.mp h with h | h
        · exact ⟨List.mem_cons.mpr (Or.inl h), h ▸ hbmem⟩
        · rw [ih] at h
          obtain ⟨h1, h2⟩ := h
          exact ⟨List.mem_cons_of_mem b h1,
            fun hs => h2 (List.mem_append.mpr (Or.inl hs))⟩
      · rintro ⟨h1, h2⟩
        by_cases hab : a = b
        · exact List.mem_cons.mpr (Or.inl hab)
        · rcases List.mem_cons.mp h1 with h1 | h1
          · exact absurd h1 hab
          · refine List.mem_cons.mpr (Or.inr ?_)
            rw [ih]
            refine ⟨h1, fun hs => ?_⟩
            rcases List.mem_append.mp hs with hs | hs
            · exact h2 hs
            · exact hab (List.mem_singleton.mp hs)

theorem mem_dedupKeepFirst (a : String) (l : List String) :
    a ∈ dedupKeepFirst l ↔ a ∈ l := by
  rw [dedupKeepFirst, mem_dedupKeepFirstAux]
  simp

theorem nodup_dedupKeepFirstAux (l : List String) :
    ∀ seen : List String, (dedupKeepFirstAux seen l).Nodup := by
  induction l with
  | nil => intro seen; simp [dedupKeepFirstAux]
  | cons b bs ih =>
    intro seen
    rw [dedupKeepFirstAux]
    by_cases hb : b ∈ seen
    · simpa [List.elem_iff, hb] using ih seen
    · rw [if_neg (by simpa [List.elem_iff] using hb)]
      refine List.nodup_cons.mpr ⟨?_, ih _⟩
      rw [mem_dedupKeepFirstAux]
      rintro ⟨-, h2⟩
      exact h2 (by simp)

theorem nodup_dedupKeepFirst (l : List String) : (dedupKeepFirst l).Nodup :=
  nodup_dedupKeepFirstAux l []

theorem getResolvedModules_eq_foldl (env : ImportEnv) (cacheFS : CacheFS) (fs : FileSystem)
    (fileContent fileName : String) :
    getResolvedModules env cacheFS fs fileContent fileName =
      (directImportPaths env fileContent fileName).foldl
        (growStep (expandedImports env cacheFS fs))
        (directImportPaths env fileContent fileName) := rfl

theorem mem_getImportedModulePaths (env : ImportEnv) (c f m : String) :
    m ∈ getImportedModulePaths env c f ↔
      m ≠ "" ∧ ∃ spec ∈ env.preProcess c, ∃ r, env.resolve spec f = some r ∧
        r.isExternalLibraryImport = false ∧ r.resolvedFileName = m := by
  unfold getImportedModulePaths
  simp only [List.mem_filter, List.mem_map, decide_eq_true_iff]
  constructor
  · rintro ⟨⟨spec, hspec, heq⟩, hne⟩
    refine ⟨hne, spec, hspec, ?_⟩
    cases hres : env.resolve spec f with
    | none =>
      rw [hres] at heq
      exact absurd heq.symm hne
    | some r =>
      rw [hres] at heq
      by_cases hext : r.isExternalLibraryImport
      · simp only [hext, if_true, if_pos] at heq
        exact absurd heq.symm hne
      · simp only [hext, if_false, Bool.false_eq_true, if_neg] at heq
        exact ⟨r, rfl, by simpa using hext, heq⟩
  · rintro ⟨hne, spec, hspec, r, hres, hext, hname⟩
    refine ⟨⟨spec, hspec, ?_⟩, hne⟩
    rw [hres]
    simp [hext, hname]

theorem statMtime_isSome_of_existsSync (fs : FileSystem) (n : String)
    (h : fs.existsSync n = true) : ∃ m, fs.statMtime n = some m := by
  unfold FileSystem.existsSync at h
  unfold FileSystem.statMtime
  obtain ⟨i, hi⟩ := Option.isSome_iff_exists.mp h
  exact ⟨i.mtimeMs, by rw [hi]; rfl⟩

theorem cacheKeyDepElements_isSome (fs : FileSystem) (ns : List String)
    (h : ∀ n ∈ ns, fs.existsSync n = true) : ∃ t, cacheKeyDepElements fs ns = some t := by
  induction ns with
  | nil => exact ⟨[], rfl⟩
  | cons n ns ih =>
    obtain ⟨t, ht⟩ := ih (fun m hm => h m (List.mem_cons_of_mem n hm))
    obtain ⟨mt, hmt⟩ := statMtime_isSome_of_existsSync fs n (h n (List.mem_cons_self n ns))
    exact ⟨_, by rw [cacheKeyDepElements, hmt, ht]⟩

theorem cacheKeyResolvedNames_of_hit (env : ImportEnv) (fs : FileSystem)
    (depGraphs : List (String × DepGraphInfo)) (cacheFS : CacheFS)
    (fileContent filePath : String)
    (hhit : depGraphHit depGraphs fileContent filePath = true) :
    ∃ info, List.lookup filePath depGraphs = some info
      ∧ info.fileContent = fileContent
      ∧ cacheKeyResolvedNames env fs depGraphs cacheFS fileContent filePath =
          info.resolvedModuleNames.filter (fun moduleName => fs.existsSync moduleName) := by
  unfold depGraphHit at hhit
  cases hlook : List.lookup filePath depGraphs with
  | none => rw [hlook] at hhit; cases hhit
  | some info =>
    rw [hlook] at hhit
    have hceq : info.fileContent = fileContent := by
      simpa using hhit
    refine ⟨info, rfl, hceq, ?_⟩
    unfold cacheKeyResolvedNames
    rw [hlook]
    simp [hceq]

theorem lookup_map_update {α : Type} (l : List (String × α)) (k : String) (v : α) :
    (List.lookup k l).isSome = true →
    List.lookup k (l.map (fun kv => if kv.1 = k then (k, v) else kv)) = some v := by
  induction l with
  | nil => intro h; simp [List.lookup] at h
  | cons kv rest ih =>
    obtain ⟨k1, v1⟩ := kv
    intro h
    by_cases hk : k = k1
    · subst hk
      have hhead : (if (k, v1).1 = k then (k, v) else (k, v1)) = (k, v) := by simp
      rw [List.map_cons, hhead]
      simp [List.lookup]
    · have hk2 : (k == k1) = false := by simpa using hk
      have hne : ¬ (k1 = k) := fun hh => hk hh.symm
      have hhead : (if (k1, v1).1 = k then (k, v) else (k1, v1)) = (k1, v1) := by simp [hne]
      simp only [List.lookup, hk2] at h
      rw [List.map_cons, hhead]
      simp only [List.lookup, hk2]
      exact ih h

theorem lookup_append_single {α : Type} (l : List (String × α)) (k : String) (v : α) :
    List.lookup k l = none →
    List.lookup k (l ++ [(k, v)]) = some v := by
  induction l with
  | nil => intro _; simp [List.lookup]
  | cons kv rest ih =>
    obtain ⟨k1, v1⟩ := kv
    intro h
    by_cases hk : k = k1
    · simp [List.lookup, hk] at h
    · have hk2 : (k == k1) = false := by simpa using hk
      simp only [List.lookup, hk2] at h
      simp only [List.cons_append, List.lookup, hk2]
      exact ih h

theorem lookup_setAssoc_self {α : Type} (l : List (String × α)) (k : String) (v : α) :
    List.lookup k (setAssoc l k v) = some v := by
  unfold setAssoc
  by_cases h : (List.lookup k l).isSome
  · rw [if_pos h]
    exact lookup_map_update l k v h
  · rw [if_neg h]
    exact lookup_append_single l k v (by
      cases hl : List.lookup k l with
      | none => rfl
      | some w => rw [hl] at h; simp at h)

theorem existsSync_of_statMtime (fs : FileSystem) (n mt : String)
    (h : fs.statMtime n = some mt) : fs.existsSync n = true := by
  unfold FileSystem.statMtime at h
  unfold FileSystem.existsSync
  cases hl : fs.lookup n with
  | none => rw [hl] at h; cases h
  | some i => rfl

theorem cacheKeyDepElements_forall_exists (fs : FileSystem) (ns : List String) :
    ∀ t, cacheKeyDepElements fs ns = some t → ∀ n ∈ ns, fs.existsSync n = true := by
  induction ns with
  | nil => intro t _ n hn; cases hn
  | cons n ns ih =>
    intro t ht m hm
    rw [cacheKeyDepElements] at ht
    cases hmt : fs.statMtime n with
    | none => rw [hmt] at ht; cases ht
    | some mt =>
      rw [hmt] at ht
      cases hrec : cacheKeyDepElements fs ns with
      | none => rw [hrec] at ht; cases ht
      | some rest =>
        rcases List.mem_cons.mp hm with hm | hm
        · exact hm ▸ existsSync_of_statMtime fs n mt hmt
        · exact ih rest hrec m hm

/-- Shape of a successful `getCacheKey` call: either the dependency branch
is off and the digest is the base element sequence, or it is on and the
digest appends the dependency elements of the resolved names, the state
updated on a fast-path miss. -/
theorem getCacheKey_ok_elim (configs : ConfigSet) (transformCfgStr : String)
    (depGraphs : List (String × DepGraphInfo)) (env : ImportEnv) (fs : FileSystem)
    (fileContent filePath : String) (instrument supportsStaticESM : Bool)
    (cacheFS : CacheFS) (digest : List String) (newDepGraphs : List (String × DepGraphInfo))
    (h : getCacheKey configs transformCfgStr depGraphs env fs fileContent filePath
      instrument supportsStaticESM cacheFS = Except.ok (digest, newDepGraphs)) :
    ((!configs.isolatedModules && configs.tsCacheDir.isSome) = false
      ∧ digest = cacheKeyBaseElements transformCfgStr configs.rootDir instrument
          supportsStaticESM fileContent filePath
      ∧ newDepGraphs = depGraphs)
    ∨ ((!configs.isolatedModules && configs.tsCacheDir.isSome) = true
      ∧ ∃ t, cacheKeyDepElements fs
            (cacheKeyResolvedNames env fs depGraphs cacheFS fileContent filePath) = some t
        ∧ digest = cacheKeyBaseElements transformCfgStr configs.rootDir instrument
            supportsStaticESM fileContent filePath ++ t
        ∧ newDepGraphs = (if depGraphHit depGraphs fileContent filePath then depGraphs
            else setAssoc depGraphs filePath
              ⟨fileContent, cacheKeyResolvedNames env fs depGraphs cacheFS fileContent filePath⟩)) := by
  unfold getCacheKey at h
  by_cases hcase : (!configs.isolatedModules && configs.tsCacheDir.isSome) = true
  · rw [if_pos hcase] at h
    refine Or.inr ⟨hcase, ?_⟩
    cases hdep : cacheKeyDepElements fs
        (cacheKeyResolvedNames env fs depGraphs cacheFS fileContent filePath) with
    | none => simp only [hdep] at h; cases h
    | some t =>
      simp only [hdep] at h
      have h2 := Except.ok.inj h
      exact ⟨t, rfl, (Prod.mk.injEq _ _ _ _ ▸ h2).1.symm,
        ((Prod.mk.injEq _ _ _ _ ▸ h2).2).symm⟩
  · rw [if_neg hcase] at h
    have h2 := Except.ok.inj h
    exact Or.inl ⟨by simpa using hcase, (Prod.mk.injEq _ _ _ _ ▸ h2).1.symm,
      ((Prod.mk.injEq _ _ _ _ ▸ h2).2).symm⟩

theorem cacheKeyBaseElements_inj_content (s1 s2 r1 r2 : String) (i1 i2 e1 e2 : Bool)
    (c1 c2 p1 p2 : String)
    (h : cacheKeyBaseElements s1 r1 i1 e1 c1 p1 = cacheKeyBaseElements s2 r2 i2 e2 c2 p2) :
    c1 = c2 := by
  unfold cacheKeyBaseElements at h
  injection h with h1 h
  injection h with h2 h
  injection h with h3 h
  injection h with h4 h
  injection h with h5 h
  injection h with h6 h
  injection h with h7 h
  injection h with h8 h
  injection h with h9 h

theorem cacheKeyBaseElements_length (s r : String) (i e : Bool) (c p : String) :
    (cacheKeyBaseElements s r i e c p).length = 11 := rfl

theorem lookup_map_pair {α β : Type} (f : α → β) (l : List (String × α)) (p : String) :
    List.lookup p (l.map (fun kv => (kv.1, f kv.2))) = (List.lookup p l).map f := by
  induction l with
  | nil => simp [List.lookup]
  | cons kv rest ih =>
    by_cases hk : p == kv.1
    · simp [List.lookup, hk]
    · simp only [Bool.not_eq_true] at hk
      simp [List.lookup, hk, ih]

theorem readFile_eq_lookup_contentView (fs : FileSystem) (p : String) :
    fs.readFile p = List.lookup p fs.contentView := by
  unfold FileSystem.readFile FileSystem.contentView FileSystem.lookup
  exact (lookup_map_pair (fun i => i.content) fs.files p).symm

theorem existsSync_eq_isSome_lookup_contentView (fs : FileSystem) (p : String) :
    fs.existsSync p = (List.lookup p fs.contentView).isSome := by
  rw [← readFile_eq_lookup_contentView]
  unfold FileSystem.existsSync FileSystem.readFile
  exact Option.isSome_map'.symm

theorem readFile_congr (fs1 fs2 : FileSystem) (h : fs1.contentView = fs2.contentView)
    (p : String) : fs1.readFile p = fs2.readFile p := by
  rw [readFile_eq_lookup_contentView, readFile_eq_lookup_contentView, h]

theorem existsSync_congr (fs1 fs2 : FileSystem) (h : fs1.contentView = fs2.contentView)
    (p : String) : fs1.existsSync p = fs2.existsSync p := by
  rw [existsSync_eq_isSome_lookup_contentView, existsSync_eq_isSome_lookup_contentView, h]

theorem getFileContentFromCache_congr (cacheFS : CacheFS) (fs1 fs2 : FileSystem)
    (h : fs1.contentView = fs2.contentView) (p : String) :
    getFileContentFromCache cacheFS fs1 p = getFileContentFromCache cacheFS fs2 p := by
  simp only [getFileContentFromCache]
  rw [readFile_congr fs1 fs2 h]

theorem expandedImports_congr (env : ImportEnv) (cacheFS : CacheFS) (fs1 fs2 : FileSystem)
    (h : fs1.contentView = fs2.contentView) :
    expandedImports env cacheFS fs1 = expandedImports env cacheFS fs2 := by
  funext p
  unfold expandedImports
  rw [getFileContentFromCache_congr cacheFS fs1 fs2 h]

theorem getResolvedModules_congr (env : ImportEnv) (cacheFS : CacheFS) (fs1 fs2 : FileSystem)
    (h : fs1.contentView = fs2.contentView) (fileContent fileName : String) :
    getResolvedModules env cacheFS fs1 fileContent fileName =
      getResolvedModules env cacheFS fs2 fileContent fileName := by
  rw [getResolvedModules_eq_foldl, getResolvedModules_eq_foldl,
    expandedImports_congr env cacheFS fs1 fs2 h]

theorem cacheKeyResolvedNames_congr (env : ImportEnv) (fs1 fs2 : FileSystem)
    (depGraphs : List (String × DepGraphInfo)) (cacheFS : CacheFS)
    (h : fs1.contentView = fs2.contentView) (fileContent filePath : String) :
    cacheKeyResolvedNames env fs1 depGraphs cacheFS fileContent filePath =
      cacheKeyResolvedNames env fs2 depGraphs cacheFS fileContent filePath := by
  unfold cacheKeyResolvedNames
  cases hl : List.lookup filePath depGraphs with
  | none =>
    simp only [hl]
    exact getResolvedModules_congr env cacheFS fs1 fs2 h fileContent filePath
  | some info =>
    simp only [hl]
    by_cases hc : info.fileContent = fileContent
    · rw [if_pos hc, if_pos hc]
      exact List.filter_congr (fun a _ => existsSync_congr fs1 fs2 h a)
    · rw [if_neg hc, if_neg hc]
      exact getResolvedModules_congr env cacheFS fs1 fs2 h fileContent filePath

theorem cacheKeyDepElements_mtime_inj (fs1 fs2 : FileSystem) (ns : List String) :
    ∀ t1 t2, cacheKeyDepElements fs1 ns = some t1 → cacheKeyDepElements fs2 ns = some t2 →
      t1 = t2 → ∀ n ∈ ns, fs1.statMtime n = fs2.statMtime n := by
  induction ns with
  | nil => intro t1 t2 _ _ _ n hn; cases hn
  | cons n ns ih =>
    intro t1 t2 h1 h2 heq m hm
    rw [cacheKeyDepElements] at h1 h2
    cases hmt1 : fs1.statMtime n with
    | none => rw [hmt1] at h1; cases h1
    | some mt1 =>
      cases hrec1 : cacheKeyDepElements fs1 ns with
      | none => rw [hmt1, hrec1] at h1; cases h1
      | some r1 =>
        cases hmt2 : fs2.statMtime n with
        | none => rw [hmt2] at h2; cases h2
        | some mt2 =>
          cases hrec2 : cacheKeyDepElements fs2 ns with
          | none => rw [hmt2, hrec2] at h2; cases h2
          | some r2 =>
            rw [hmt1, hrec1] at h1
            rw [hmt2, hrec2] at h2
            have e1 := Option.some.inj h1
            have e2 := Option.some.inj h2
            rw [← e1, ← e2] at heq
            simp only [List.cons_append, List.nil_append, List.cons.injEq] at heq
            obtain ⟨-, -, -, hmteq, hresteq⟩ := heq
            rcases List.mem_cons.mp hm with hm | hm
            · subst hm
              rw [hmt1, hmt2, hmteq]
            · exact ih r1 r2 hrec1 hrec2 hresteq m hm

theorem backpatchFirst_map_configSetId (l : List CachedConfigSet) (x : String) (r : Nat) :
    (backpatchFirst l x r).map (fun cs => cs.configSetId) =
      l.map (fun cs => cs.configSetId) := by
  induction l with
  | nil => rfl
  | cons hd tl ih =>
    rw [backpatchFirst]
    by_cases h : hd.jestConfigSerialized == x
    · rw [if_pos h]; simp
    · rw [if_neg h]; simp [ih]

theorem backpatchFirst_map_serialized (l : List CachedConfigSet) (x : String) (r : Nat) :
    (backpatchFirst l x r).map (fun cs => cs.jestConfigSerialized) =
      l.map (fun cs => cs.jestConfigSerialized) := by
  induction l with
  | nil => rfl
  | cons hd tl ih =>
    rw [backpatchFirst]
    by_cases h : hd.jestConfigSerialized == x
    · rw [if_pos h]; simp
    · rw [if_neg h]; simp [ih]

theorem mem_backpatchFirst_of_mem (l : List CachedConfigSet) (x : String) (r : Nat) :
    ∀ d ∈ l, ∃ d2 ∈ backpatchFirst l x r, d2.configSetId = d.configSetId
      ∧ d2.jestConfigSerialized = d.jestConfigSerialized := by
  induction l with
  | nil => intro d hd; cases hd
  | cons hd tl ih =>
    intro d hmem
    rw [backpatchFirst]
    by_cases h : hd.jestConfigSerialized == x
    · rw [if_pos h]
      rcases List.mem_cons.mp hmem with hcase | hcase
      · exact ⟨{ hd with jestConfigRef := r }, List.mem_cons_self _ _,
          by rw [hcase], by rw [hcase]⟩
      · exact ⟨d, List.mem_cons_of_mem _ hcase, rfl, rfl⟩
    · rw [if_neg h]
      rcases List.mem_cons.mp hmem with hcase | hcase
      · exact ⟨hd, List.mem_cons_self _ _, by rw [hcase], by rw [hcase]⟩
      · obtain ⟨d2, hd2, hid, hser⟩ := ih d hcase
        exact ⟨d2, List.mem_cons_of_mem _ hd2, hid, hser⟩

theorem backpatchFirst_mem_patched (l : List CachedConfigSet) (x : String) (r : Nat)
    (c : CachedConfigSet)
    (h : l.find? (fun cs => cs.jestConfigSerialized == x) = some c) :
    { c with jestConfigRef := r } ∈ backpatchFirst l x r := by
  induction l with
  | nil => cases h
  | cons hd tl ih =>
    rw [backpatchFirst]
    by_cases hp : hd.jestConfigSerialized == x
    · rw [if_pos hp]
      have hfind : (hd :: tl).find? (fun cs => cs.jestConfigSerialized == x) = some hd :=
        List.find?_cons_of_pos tl hp
      rw [hfind] at h
      rw [← Option.some.inj h]
      exact List.mem_cons_self _ _
    · rw [if_neg hp]
      have hfind : (hd :: tl).find? (fun cs => cs.jestConfigSerialized == x) =
          tl.find? (fun cs => cs.jestConfigSerialized == x) :=
        List.find?_cons_of_neg tl (by simpa using hp)
      rw [hfind] at h
      exact List.mem_cons_of_mem _ (ih h)

theorem mem_backpatchFirst (l : List CachedConfigSet) (x : String) (r : Nat) :
    ∀ d2 ∈ backpatchFirst l x r,
      d2 ∈ l ∨ ∃ d ∈ l, d2 = { d with jestConfigRef := r }
        ∧ d.jestConfigSerialized = x := by
  induction l with
  | nil => intro d2 hd2; cases hd2
  | cons hd tl ih =>
    intro d2 hd2
    rw [backpatchFirst] at hd2
    by_cases hp : hd.jestConfigSerialized == x
    · rw [if_pos hp] at hd2
      rcases List.mem_cons.mp hd2 with hd2 | hd2
      · exact Or.inr ⟨hd, List.mem_cons_self _ _, hd2, by simpa using hp⟩
      · exact Or.inl (List.mem_cons_of_mem _ hd2)
    · rw [if_neg hp] at hd2
      rcases List.mem_cons.mp hd2 with hd2 | hd2
      · exact Or.inl (hd2 ▸ List.mem_cons_self _ _)
      · rcases ih d2 hd2 with h | ⟨d, hd', heq, hser⟩
        · exact Or.inl (List.mem_cons_of_mem _ h)
        · exact Or.inr ⟨d, List.mem_cons_of_mem _ hd', heq, hser⟩

theorem registryInv_id_inj (serializeOf : Nat → String) (reg : List CachedConfigSet)
    (h : RegistryInv serializeOf reg) :
    ∀ c1 ∈ reg, ∀ c2 ∈ reg, c1.configSetId = c2.configSetId → c1 = c2 := by
  intro c1 h1 c2 h2 hid
  have hnodup : (reg.map (fun cs => cs.configSetId)).Nodup := by
    rw [h.1]; exact List.nodup_range _
  exact List.inj_on_of_nodup_map hnodup h1 h2 hid

theorem registryInv_ser_inj (serializeOf : Nat → String) (reg : List CachedConfigSet)
    (h : RegistryInv serializeOf reg) :
    ∀ c1 ∈ reg, ∀ c2 ∈ reg,
      c1.jestConfigSerialized = c2.jestConfigSerialized → c1 = c2 := by
  intro c1 h1 c2 h2 hser
  exact List.inj_on_of_nodup_map h.2.1 h1 h2 hser

theorem sessionOf_eq_of_mem (serializeOf : Nat → String) (reg : List CachedConfigSet)
    (h : RegistryInv serializeOf reg) (cs : CachedConfigSet) (hcs : cs ∈ reg) :
    sessionOf reg cs.jestConfigSerialized = some cs.configSetId := by
  unfold sessionOf
  have hsome : (reg.find? (fun c => c.jestConfigSerialized == cs.jestConfigSerialized)).isSome := by
    rw [List.find?_isSome]
    exact ⟨cs, hcs, by simp⟩
  obtain ⟨c, hc⟩ := Option.isSome_iff_exists.mp hsome
  have hcmem := List.mem_of_find?_eq_some hc
  have hcser : c.jestConfigSerialized = cs.jestConfigSerialized := by
    simpa using List.find?_some hc
  rw [hc]
  rw [registryInv_ser_inj serializeOf reg h c hcmem cs hcs hcser]
  rfl

/-- Full behavior of one `configsFor` step on an invariant registry: the
invariant is preserved, the returned session is recorded in the result
under the serialization of the presented configuration, no record is ever
evicted (ids and serialized forms survive), and if the serialization was
already known the recorded session is returned. -/
theorem configsFor_spec (serializeOf : Nat → String) (reg : List CachedConfigSet) (r : Nat)
    (hInv : RegistryInv serializeOf reg) :
    RegistryInv serializeOf (configsFor serializeOf reg r).2
    ∧ (∃ cs ∈ (configsFor serializeOf reg r).2,
        cs.configSetId = (configsFor serializeOf reg r).1
        ∧ cs.jestConfigSerialized = serializeOf r)
    ∧ (∀ cs ∈ reg, ∃ cs2 ∈ (configsFor serializeOf reg r).2,
        cs2.configSetId = cs.configSetId
        ∧ cs2.jestConfigSerialized = cs.jestConfigSerialized)
    ∧ (∀ i, sessionOf reg (serializeOf r) = some i → (configsFor serializeOf reg r).1 = i) := by
  unfold configsFor
  cases href : reg.find? (fun cs => cs.jestConfigRef == r) with
  | some ccs =>
    simp only [href]
    have hmem := List.mem_of_find?_eq_some href
    have hrefeq : ccs.jestConfigRef = r := by simpa using List.find?_some href
    have hser : ccs.jestConfigSerialized = serializeOf r := by
      rw [hInv.2.2 ccs hmem, hrefeq]
    refine ⟨hInv, ⟨ccs, hmem, rfl, hser⟩, fun cs hcs => ⟨cs, hcs, rfl, rfl⟩, ?_⟩
    intro i hi
    rw [← hser] at hi
    rw [sessionOf_eq_of_mem serializeOf reg hInv ccs hmem] at hi
    exact Option.some.inj hi
  | none =>
    cases hserf : reg.find? (fun cs => cs.jestConfigSerialized == serializeOf r) with
    | some ccs =>
      simp only [href, hserf]
      have hmem := List.mem_of_find?_eq_some hserf
      have hsereq : ccs.jestConfigSerialized = serializeOf r := by
        simpa using List.find?_some hserf
      have hpatched := backpatchFirst_mem_patched reg (serializeOf r) r ccs hserf
      refine ⟨?_, ⟨{ ccs with jestConfigRef := r }, hpatched, rfl, hsereq⟩,
        mem_backpatchFirst_of_mem reg (serializeOf r) r, ?_⟩
      · refine ⟨?_, ?_, ?_⟩
        · rw [backpatchFirst_map_configSetId]
          have hlen : (backpatchFirst reg (serializeOf r) r).length = reg.length := by
            have := backpatchFirst_map_serialized reg (serializeOf r) r
            have h2 := congrArg List.length this
            simpa using h2
          rw [hlen]
          exact hInv.1
        · rw [backpatchFirst_map_serialized]
          exact hInv.2.1
        · intro cs hcs
          rcases mem_backpatchFirst reg (serializeOf r) r cs hcs with h | ⟨d, hd, heq, hdse⟩
          · exact hInv.2.2 cs h
          · rw [heq]
            simpa using hdse
      · intro i hi
        unfold sessionOf at hi
        rw [hserf] at hi
        exact Option.some.inj hi
    | none =>
      simp only [href, hserf]
      have hnotin : serializeOf r ∉ reg.map (fun cs => cs.jestConfigSerialized) := by
        intro hmem
        obtain ⟨cs, hcs, hser⟩ := List.mem_map.mp hmem
        exact absurd (by simpa using hser)
          (by simpa using List.find?_eq_none.mp hserf cs hcs)
      refine ⟨?_, ⟨⟨r, serializeOf r, reg.length⟩, List.mem_append_right _ (by simp), rfl, rfl⟩,
        fun cs hcs => ⟨cs, List.mem_append_left _ hcs, rfl, rfl⟩, ?_⟩
      · refine ⟨?_, ?_, ?_⟩
        · simp only [List.map_append, List.length_append, List.map_cons, List.map_nil,
            List.length_cons, List.length_nil]
          rw [hInv.1]
          have hlen : reg.length + (0 + 1) = reg.length + 1 := by omega
          rw [hlen, List.range_succ (reg.length)]
        · simp only [List.map_append, List.map_cons, List.map_nil]
          have h1 : (reg.map (fun cs => cs.jestConfigSerialized)).Nodup := hInv.2.1
          refine List.Nodup.append h1 (by simp) ?_
          intro a ha hb
          rw [List.mem_singleton] at hb
          exact hnotin (hb ▸ ha)
        · intro cs hcs
          rcases List.mem_append.mp hcs with h | h
          · exact hInv.2.2 cs h
          · rw [List.mem_singleton] at h
            rw [h]
      · intro i hi
        unfold sessionOf at hi
        rw [hserf] at hi
        cases hi

theorem updateMemoryCache_fixpoint (parsedFileNames : List String) (st : CompilerState)
    (contents fileName : String)
    (hfic : isFileInCache st fileName = true)
    (hcached : List.lookup fileName st.fileContentCache = some contents)
    (hmem : parsedFileNames.contains fileName = true) :
    updateMemoryCache parsedFileNames st contents fileName true = st := by
  unfold updateMemoryCache
  simp only [hfic, hcached, hmem, Bool.not_true, Bool.false_or, Bool.or_false, bne_self_eq_false,
    Bool.or_self, if_false, ite_self]
  simp

theorem getScriptSnapshot_fixpoint (cacheFS : CacheFS) (fs : FileSystem)
    (st : CompilerState) (fileName : String)
    (hfic : isFileInCache st fileName = true) :
    getScriptSnapshot cacheFS fs st fileName = st := by
  unfold getScriptSnapshot pathNormalize
  rw [if_pos hfic]

theorem raisePhase_no_diags (configs : ConfigSet) (ls : LangServiceModel)
    (cacheFS : CacheFS) (fs : FileSystem) (st : CompilerState) (fileName : String)
    (isEsmMode : Bool) (options : CompileOptions) :
    raisePhase configs ls cacheFS fs st fileName isEsmMode [] options = (none, st, []) := by
  unfold raisePhase
  simp

theorem watchReCheck_complete (configs : ConfigSet) (ls : LangServiceModel)
    (cacheFS : CacheFS) (fs : FileSystem) (fileName : String)
    (hnothrow : ∀ ds f, configs.raisePolicy ds f = none) :
    ∀ (entries : List (String × DepGraphInfo)) (st : CompilerState)
      (acc : List (String × List String)),
      (watchReCheck configs ls cacheFS fs fileName entries st acc).1 = none
      ∧ (∀ x ∈ acc, x ∈ (watchReCheck configs ls cacheFS fs fileName entries st acc).2.2)
      ∧ (∀ G info, (G, info) ∈ entries →
          (info.resolvedModuleNames.map pathNormalize).contains fileName = true →
          configs.shouldReportDiagnostics G = true →
          ∃ ds, (G, ds) ∈ (watchReCheck configs ls cacheFS fs fileName entries st acc).2.2) := by
  intro entries
  induction entries with
  | nil =>
    intro st acc
    refine ⟨rfl, fun x hx => hx, ?_⟩
    intro G info hmem
    cases hmem
  | cons hd rest ih =>
    intro st acc
    obtain ⟨g, info⟩ := hd
    rw [watchReCheck]
    by_cases hcond : ((info.resolvedModuleNames.map pathNormalize).contains fileName
        && configs.shouldReportDiagnostics g) = true
    · rw [if_pos hcond]
      simp only [hnothrow]
      refine ⟨(ih _ _).1, ?_, ?_⟩
      · intro x hx
        exact (ih _ _).2.1 x (List.mem_append_left _ hx)
      · intro G ginfo hmem hcont hrep
        rcases List.mem_cons.mp hmem with hcase | hcase
        · have hG : G = g := congrArg Prod.fst hcase
          refine ⟨ls.semanticDiags (updateMemoryCache configs.parsedFileNames st
              ((getFileContentFromCache cacheFS fs g).getD "") g true).fileContentCache g
            ++ ls.syntacticDiags (updateMemoryCache configs.parsedFileNames st
              ((getFileContentFromCache cacheFS fs g).getD "") g true).fileContentCache g, ?_⟩
          rw [hG]
          exact (ih _ _).2.1 _ (List.mem_append_right _ (by simp))
        · exact (ih _ _).2.2 G ginfo hcase hcont hrep
    · rw [if_neg hcond]
      refine ⟨(ih _ _).1, (ih _ _).2.1, ?_⟩
      intro G ginfo hmem hcont hrep
      rcases List.mem_cons.mp hmem with hcase | hcase
      · exfalso
        apply hcond
        have hG : G = g := congrArg Prod.fst hcase
        have hI : ginfo = info := congrArg Prod.snd hcase
        rw [← hG, ← hI, hcont, hrep]
        rfl
      · exact (ih _ _).2.2 G ginfo hcase hcont hrep

theorem isDefinitionFile_eq_false_of_isJsJsx (p : String) (h : isJsJsx p = true) :
    isDefinitionFile p = false := by
  unfold isJsJsx strEndsWith at h
  unfold isDefinitionFile strEndsWith
  cases hx : List.isSuffixOf ".d.ts".data p.data with
  | false => rfl
  | true =>
    exfalso
    have hsuf : (".d.ts".data : List Char) <:+ p.data := List.isSuffixOf_iff_suffix.mp hx
    rcases (Bool.or_eq_true _ _).mp h with hjs | hjsx
    · have h1 : (".js".data : List Char) <:+ p.data := List.isSuffixOf_iff_suffix.mp hjs
      rcases List.suffix_or_suffix_of_suffix h1 hsuf with hc | hc
      · exact absurd hc (by decide)
      · exact absurd hc (by decide)
    · have h1 : (".jsx".data : List Char) <:+ p.data := List.isSuffixOf_iff_suffix.mp hjsx
      rcases List.suffix_or_suffix_of_suffix h1 hsuf with hc | hc
      · exact absurd hc (by decide)
      · exact absurd hc (by decide)

/-! ### Claims -/

/-- C3 (counterexample): in the chain `A → /b.ts → /c.ts → /d.ts`,
`getResolvedModules` returns only `[/b.ts, /c.ts]`; `/c.ts` is in the
result and `/d.ts` is one of its resolved non-external direct imports,
yet `/d.ts` is missing — the result is not the transitive closure,
because the `forEach` loop never visits the appended entries. -/
theorem c3_transitive_closure_counterexample :
    getResolvedModules envChain [] fsChain "A" "/a.ts" = ["/b.ts", "/c.ts"]
    ∧ "/c.ts" ∈ getResolvedModules envChain [] fsChain "A" "/a.ts"
    ∧ "/d.ts" ∈ expandedImports envChain [] fsChain "/c.ts"
    ∧ "/d.ts" ∉ getResolvedModules envChain [] fsChain "A" "/a.ts" := by
  decide

/-- C3 (amended): `getResolvedModules` always terminates and returns the
deduplicated direct imports of the root followed by, for each direct
entry in order, its own direct imports not already present when its
batch is filtered; appended paths are never expanded further and never
re-queued, every path in the result is a direct import or a direct import
of a direct import, every such two-hop import is present, and when each
visited file's own import batch has no internal duplicates each distinct
path occurs exactly once. -/
theorem c3_resolved_modules_amended (env : ImportEnv) (cacheFS : CacheFS) (fs : FileSystem)
    (fileContent fileName : String)
    (hnodup : ∀ p ∈ directImportPaths env fileContent fileName,
      (expandedImports env cacheFS fs p).Nodup) :
    (∃ t, getResolvedModules env cacheFS fs fileContent fileName =
        directImportPaths env fileContent fileName ++ t)
    ∧ (getResolvedModules env cacheFS fs fileContent fileName).Nodup
    ∧ (∀ m ∈ getResolvedModules env cacheFS fs fileContent fileName,
        m ∈ directImportPaths env fileContent fileName
        ∨ ∃ p ∈ directImportPaths env fileContent fileName,
            m ∈ expandedImports env cacheFS fs p)
    ∧ (∀ p ∈ directImportPaths env fileContent fileName,
        ∀ m ∈ expandedImports env cacheFS fs p,
          m ∈ getResolvedModules env cacheFS fs fileContent fileName) := by
  rw [getResolvedModules_eq_foldl]
  refine ⟨foldl_growStep_append _ _ _, ?_, ?_, ?_⟩
  · exact nodup_foldl_growStep _ _ hnodup _ (nodup_dedupKeepFirst _)
  · intro m hm
    exact mem_foldl_growStep _ _ _ m hm
  · intro p hp m hm
    exact mem_foldl_growStep_of_mem_batch _ _ _ p hp m hm

/-- C3 (witness): the amended theorem applied to the concrete chain. -/
theorem c3_resolved_modules_amended_witness :
    (∀ p ∈ directImportPaths envChain "A" "/a.ts",
      (expandedImports envChain [] fsChain p).Nodup)
    ∧ ((∃ t, getResolvedModules envChain [] fsChain "A" "/a.ts" =
          directImportPaths envChain "A" "/a.ts" ++ t)
      ∧ (getResolvedModules envChain [] fsChain "A" "/a.ts").Nodup
      ∧ (∀ m ∈ getResolvedModules envChain [] fsChain "A" "/a.ts",
          m ∈ directImportPaths envChain "A" "/a.ts"
          ∨ ∃ p ∈ directImportPaths envChain "A" "/a.ts",
              m ∈ expandedImports envChain [] fsChain p)
      ∧ (∀ p ∈ directImportPaths envChain "A" "/a.ts",
          ∀ m ∈ expandedImports envChain [] fsChain p,
            m ∈ getResolvedModules envChain [] fsChain "A" "/a.ts")) :=
  ⟨by decide, c3_resolved_modules_amended envChain [] fsChain "A" "/a.ts" (by decide)⟩

/-- C9: during dependency-graph building an import contributes to the
result exactly when it resolves to a non-external module (an unresolved
one is silently dropped, never an error); on the dep-graph fast path
of the cache key every appended path still exists on disk (missing files
are silently excluded); and whenever every resolved path of the reachable
set exists at call time, `getCacheKey` returns a digest rather than an
error. -/
theorem c9_resolution_gaps_silent :
    (∀ (env : ImportEnv) (c f m : String),
      m ∈ getImportedModulePaths env c f ↔
        m ≠ "" ∧ ∃ spec ∈ env.preProcess c, ∃ r, env.resolve spec f = some r ∧
          r.isExternalLibraryImport = false ∧ r.resolvedFileName = m)
    ∧ (∀ (env : ImportEnv) (fs : FileSystem) (depGraphs : List (String × DepGraphInfo))
        (cacheFS : CacheFS) (fileContent filePath : String),
        depGraphHit depGraphs fileContent filePath = true →
        ∀ n ∈ cacheKeyResolvedNames env fs depGraphs cacheFS fileContent filePath,
          fs.existsSync n = true)
    ∧ (∀ (configs : ConfigSet) (transformCfgStr : String)
        (depGraphs : List (String × DepGraphInfo)) (env : ImportEnv) (fs : FileSystem)
        (fileContent filePath : String) (instrument supportsStaticESM : Bool)
        (cacheFS : CacheFS),
        (∀ n ∈ cacheKeyResolvedNames env fs depGraphs cacheFS fileContent filePath,
          fs.existsSync n = true) →
        ∃ digest newDepGraphs,
          getCacheKey configs transformCfgStr depGraphs env fs fileContent filePath
            instrument supportsStaticESM cacheFS = Except.ok (digest, newDepGraphs)) := by
  refine ⟨mem_getImportedModulePaths, ?_, ?_⟩
  · intro env fs depGraphs cacheFS fileContent filePath hhit n hn
    obtain ⟨info, -, -, hnames⟩ :=
      cacheKeyResolvedNames_of_hit env fs depGraphs cacheFS fileContent filePath hhit
    rw [hnames] at hn
    exact (List.mem_filter.mp hn).2
  · intro configs transformCfgStr depGraphs env fs fileContent filePath instrument
      supportsStaticESM cacheFS hexists
    unfold getCacheKey
    by_cases hcase : (!configs.isolatedModules && configs.tsCacheDir.isSome) = true
    · rw [if_pos hcase]
      obtain ⟨t, ht⟩ := cacheKeyDepElements_isSome fs
        (cacheKeyResolvedNames env fs depGraphs cacheFS fileContent filePath) hexists
      simp only [ht]
      exact ⟨_, _, rfl⟩
    · rw [if_neg hcase]
      exact ⟨_, _, rfl⟩

/-- C9 (witness): on the concrete stale dependency graph, the fast path
keeps only the surviving file `/b.ts`, the unresolved specifier `./x` is
dropped, and `getCacheKey` succeeds. -/
theorem c9_resolution_gaps_silent_witness :
    ("/b.ts" ∈ getImportedModulePaths envChain "A" "/a.ts" ↔
      "/b.ts" ≠ "" ∧ ∃ spec ∈ envChain.preProcess "A", ∃ r,
        envChain.resolve spec "/a.ts" = some r ∧
        r.isExternalLibraryImport = false ∧ r.resolvedFileName = "/b.ts")
    ∧ (depGraphHit depGraphsStale "A" "/a.ts" = true
      ∧ ∀ n ∈ cacheKeyResolvedNames envChain fsChain depGraphsStale [] "A" "/a.ts",
          fsChain.existsSync n = true)
    ∧ ((∀ n ∈ cacheKeyResolvedNames envChain fsChain depGraphsStale [] "A" "/a.ts",
          fsChain.existsSync n = true)
      ∧ ∃ digest newDepGraphs,
          getCacheKey configsCK "cfg" depGraphsStale envChain fsChain "A" "/a.ts"
            false false [] = Except.ok (digest, newDepGraphs)) :=
  ⟨c9_resolution_gaps_silent.1 envChain "A" "/a.ts" "/b.ts",
   ⟨by decide,
    c9_resolution_gaps_silent.2.1 envChain fsChain depGraphsStale [] "A" "/a.ts" (by decide)⟩,
   ⟨by decide,
    c9_resolution_gaps_silent.2.2 configsCK "cfg" depGraphsStale envChain fsChain "A" "/a.ts"
      false false [] (by decide)⟩⟩

/-- C1: cache-key determinism and sensitivity. (a) A second `getCacheKey`
call with identical inputs on an unchanged filesystem — made on the
dep-graph state the first call produced — returns the same digest and
state. (b) Two successful calls for the same path whose file contents
differ produce different digests. (c) Two successful calls with
identical inputs over two filesystems that agree on existence and
contents but differ in the modification time of some file of the
reachable set produce different digests. -/
theorem c1_cache_key_determinism_and_sensitivity :
    (∀ (configs : ConfigSet) (transformCfgStr : String)
      (depGraphs : List (String × DepGraphInfo)) (env : ImportEnv) (fs : FileSystem)
      (fileContent filePath : String) (instrument supportsStaticESM : Bool)
      (cacheFS : CacheFS) (digest : List String) (depGraphs1 : List (String × DepGraphInfo)),
      getCacheKey configs transformCfgStr depGraphs env fs fileContent filePath
        instrument supportsStaticESM cacheFS = Except.ok (digest, depGraphs1) →
      getCacheKey configs transformCfgStr depGraphs1 env fs fileContent filePath
        instrument supportsStaticESM cacheFS = Except.ok (digest, depGraphs1))
    ∧ (∀ (configs : ConfigSet) (transformCfgStr : String)
      (depGraphs depGraphs' : List (String × DepGraphInfo)) (env env' : ImportEnv)
      (fs fs' : FileSystem) (c c' p : String) (instrument supportsStaticESM : Bool)
      (cacheFS cacheFS' : CacheFS) (k k' : List String)
      (d1 d1' : List (String × DepGraphInfo)),
      getCacheKey configs transformCfgStr depGraphs env fs c p
        instrument supportsStaticESM cacheFS = Except.ok (k, d1) →
      getCacheKey configs transformCfgStr depGraphs' env' fs' c' p
        instrument supportsStaticESM cacheFS' = Except.ok (k', d1') →
      c ≠ c' → k ≠ k')
    ∧ (∀ (configs : ConfigSet) (transformCfgStr : String)
      (depGraphs : List (String × DepGraphInfo)) (env : ImportEnv) (fs fs' : FileSystem)
      (c p : String) (instrument supportsStaticESM : Bool) (cacheFS : CacheFS)
      (k k' : List String) (d1 d1' : List (String × DepGraphInfo)) (f : String),
      (!configs.isolatedModules && configs.tsCacheDir.isSome) = true →
      fs.contentView = fs'.contentView →
      getCacheKey configs transformCfgStr depGraphs env fs c p
        instrument supportsStaticESM cacheFS = Except.ok (k, d1) →
      getCacheKey configs transformCfgStr depGraphs env fs' c p
        instrument supportsStaticESM cacheFS = Except.ok (k', d1') →
      f ∈ cacheKeyResolvedNames env fs depGraphs cacheFS c p →
      fs.statMtime f ≠ fs'.statMtime f → k ≠ k') := by
  refine ⟨?_, ?_, ?_⟩
  · intro configs transformCfgStr depGraphs env fs fileContent filePath instrument
      supportsStaticESM cacheFS digest depGraphs1 h
    rcases getCacheKey_ok_elim configs transformCfgStr depGraphs env fs fileContent filePath
        instrument supportsStaticESM cacheFS digest depGraphs1 h with
      ⟨hoff, hk, hdg⟩ | ⟨hon, t, ht, hk, hdg⟩
    · subst hdg
      unfold getCacheKey
      rw [if_neg (by rw [hoff]; exact Bool.false_ne_true)]
      rw [hk]
      rfl
    · by_cases hhit : depGraphHit depGraphs fileContent filePath
      · rw [if_pos hhit] at hdg
        subst hdg
        exact h
      · rw [if_neg hhit] at hdg
        have hexists : ∀ n ∈ cacheKeyResolvedNames env fs depGraphs cacheFS fileContent filePath,
            fs.existsSync n = true :=
          cacheKeyDepElements_forall_exists fs _ t ht
        have hlook1 : List.lookup filePath depGraphs1 =
            some ⟨fileContent, cacheKeyResolvedNames env fs depGraphs cacheFS fileContent filePath⟩ := by
          rw [hdg]; exact lookup_setAssoc_self depGraphs filePath _
        have hhit1 : depGraphHit depGraphs1 fileContent filePath = true := by
          unfold depGraphHit
          rw [hlook1]
          simp
        have hnames1 : cacheKeyResolvedNames env fs depGraphs1 cacheFS fileContent filePath =
            cacheKeyResolvedNames env fs depGraphs cacheFS fileContent filePath := by
          unfold cacheKeyResolvedNames
          rw [hlook1]
          simp only [if_pos rfl]
          exact List.filter_eq_self.mpr hexists
        unfold getCacheKey
        rw [if_pos hon]
        simp only [hnames1, hhit1, if_true, ht, hk]
        rfl
  · intro configs transformCfgStr depGraphs depGraphs' env env' fs fs' c c' p instrument
      supportsStaticESM cacheFS cacheFS' k k' d1 d1' h1 h2 hne
    rcases getCacheKey_ok_elim configs transformCfgStr depGraphs env fs c p
        instrument supportsStaticESM cacheFS k d1 h1 with
      ⟨hoff1, hk1, -⟩ | ⟨hon1, t1, -, hk1, -⟩
    · rcases getCacheKey_ok_elim configs transformCfgStr depGraphs' env' fs' c' p
          instrument supportsStaticESM cacheFS' k' d1' h2 with
        ⟨-, hk2, -⟩ | ⟨hon2, -, -, -, -⟩
      · intro hkk
        rw [hk1, hk2] at hkk
        exact hne (cacheKeyBaseElements_inj_content _ _ _ _ _ _ _ _ _ _ _ _ hkk)
      · rw [hon2] at hoff1; cases hoff1
    · rcases getCacheKey_ok_elim configs transformCfgStr depGraphs' env' fs' c' p
          instrument supportsStaticESM cacheFS' k' d1' h2 with
        ⟨hoff2, -, -⟩ | ⟨-, t2, -, hk2, -⟩
      · rw [hon1] at hoff2; cases hoff2
      · intro hkk
        rw [hk1, hk2] at hkk
        have hbase := (List.append_inj hkk (by
          rw [cacheKeyBaseElements_length, cacheKeyBaseElements_length])).1
        exact hne (cacheKeyBaseElements_inj_content _ _ _ _ _ _ _ _ _ _ _ _ hbase)
  · intro configs transformCfgStr depGraphs env fs fs' c p instrument supportsStaticESM
      cacheFS k k' d1 d1' f hon hcv h1 h2 hf hmtime
    rcases getCacheKey_ok_elim configs transformCfgStr depGraphs env fs c p
        instrument supportsStaticESM cacheFS k d1 h1 with
      ⟨hoff1, -, -⟩ | ⟨-, t1, ht1, hk1, -⟩
    · rw [hon] at hoff1; cases hoff1
    rcases getCacheKey_ok_elim configs transformCfgStr depGraphs env fs' c p
        instrument supportsStaticESM cacheFS k' d1' h2 with
      ⟨hoff2, -, -⟩ | ⟨-, t2, ht2, hk2, -⟩
    · rw [hon] at hoff2; cases hoff2
    have hnameseq : cacheKeyResolvedNames env fs' depGraphs cacheFS c p =
        cacheKeyResolvedNames env fs depGraphs cacheFS c p :=
      (cacheKeyResolvedNames_congr env fs fs' depGraphs cacheFS hcv c p).symm
    rw [hnameseq] at ht2
    intro hkk
    rw [hk1, hk2] at hkk
    have hteq := List.append_cancel_left hkk
    exact hmtime (cacheKeyDepElements_mtime_inj fs fs'
      (cacheKeyResolvedNames env fs depGraphs cacheFS c p) t1 t2 ht1 ht2 hteq f hf)

/-- C1 (witness): the determinism and the two sensitivity parts applied
to the concrete chain project: the repeated call reproduces `keyA` and
leaves the state unchanged; changing the content to `Z` or touching
`/b.ts` changes the digest. -/
theorem c1_cache_key_witness :
    getCacheKey configsCK "cfg" dgA envChain fsChain "A" "/a.ts" false false [] =
      Except.ok (keyA, dgA)
    ∧ keyA ≠ keyZ
    ∧ keyA ≠ keyTouched :=
  ⟨c1_cache_key_determinism_and_sensitivity.1 configsCK "cfg" [] envChain fsChain "A" "/a.ts"
      false false [] keyA dgA (by rfl),
   c1_cache_key_determinism_and_sensitivity.2.1 configsCK "cfg" [] [] envChain envChain
      fsChain fsChain "A" "Z" "/a.ts" false false [] [] keyA keyZ dgA
      [("/a.ts", ⟨"Z", []⟩)] (by rfl) (by rfl) (by decide),
   c1_cache_key_determinism_and_sensitivity.2.2 configsCK "cfg" [] envChain fsChain
      fsChainTouched "A" "/a.ts" false false [] keyA keyTouched dgA dgA "/b.ts"
      (by decide) (by decide) (by rfl) (by rfl) (by decide) (by decide)⟩

/-- C2: resolving two configurations with distinct serialized identities
through the registry yields distinct sessions; resolving a configuration
whose serialized form is already recorded — by the same live object or a
re-serialized copy — returns the recorded session; when the live object
is new but its serialized form is known, the matched record is
back-patched with the live reference; and registry records are never
evicted. Starting from an invariant registry the invariant is preserved
(`configsFor_spec`). -/
theorem c2_registry_sessions :
    (∀ (serializeOf : Nat → String) (reg : List CachedConfigSet) (r1 r2 : Nat),
      RegistryInv serializeOf reg → serializeOf r1 ≠ serializeOf r2 →
      (configsFor serializeOf (configsFor serializeOf reg r1).2 r2).1 ≠
        (configsFor serializeOf reg r1).1)
    ∧ (∀ (serializeOf : Nat → String) (reg : List CachedConfigSet) (r1 r2 : Nat),
      RegistryInv serializeOf reg → serializeOf r2 = serializeOf r1 →
      (configsFor serializeOf (configsFor serializeOf reg r1).2 r2).1 =
        (configsFor serializeOf reg r1).1)
    ∧ (∀ (serializeOf : Nat → String) (reg : List CachedConfigSet) (r : Nat) (i : Nat),
      RegistryInv serializeOf reg →
      (∀ cs ∈ reg, cs.jestConfigRef ≠ r) →
      sessionOf reg (serializeOf r) = some i →
      ∃ cs ∈ (configsFor serializeOf reg r).2, cs.configSetId = i ∧ cs.jestConfigRef = r)
    ∧ (∀ (serializeOf : Nat → String) (reg : List CachedConfigSet) (r : Nat),
      RegistryInv serializeOf reg →
      ∀ cs ∈ reg, ∃ cs2 ∈ (configsFor serializeOf reg r).2,
        cs2.configSetId = cs.configSetId
        ∧ cs2.jestConfigSerialized = cs.jestConfigSerialized) := by
  refine ⟨?_, ?_, ?_, ?_⟩
  · intro serializeOf reg r1 r2 hInv hne heq
    obtain ⟨hInv1, ⟨cs1, hcs1, hid1, hser1⟩, -, -⟩ := configsFor_spec serializeOf reg r1 hInv
    obtain ⟨hInv2, ⟨cs2, hcs2, hid2, hser2⟩, hkeep, -⟩ :=
      configsFor_spec serializeOf (configsFor serializeOf reg r1).2 r2 hInv1
    obtain ⟨cs1b, hcs1b, hid1b, hser1b⟩ := hkeep cs1 hcs1
    have hideq : cs2.configSetId = cs1b.configSetId := by
      rw [hid2, heq, ← hid1, hid1b]
    have := registryInv_id_inj serializeOf _ hInv2 cs2 hcs2 cs1b hcs1b hideq
    apply hne
    rw [← hser1, ← hser1b, ← this, hser2]
  · intro serializeOf reg r1 r2 hInv hsame
    obtain ⟨hInv1, ⟨cs1, hcs1, hid1, hser1⟩, -, -⟩ := configsFor_spec serializeOf reg r1 hInv
    obtain ⟨-, -, -, hstable⟩ :=
      configsFor_spec serializeOf (configsFor serializeOf reg r1).2 r2 hInv1
    have hsess : sessionOf (configsFor serializeOf reg r1).2 (serializeOf r2) =
        some cs1.configSetId := by
      rw [hsame, ← hser1]
      exact sessionOf_eq_of_mem serializeOf _ hInv1 cs1 hcs1
    rw [hstable cs1.configSetId hsess, hid1]
  · intro serializeOf reg r i hInv hnoref hsess
    have href : reg.find? (fun cs => cs.jestConfigRef == r) = none :=
      List.find?_eq_none.mpr (fun cs hcs => by simpa using hnoref cs hcs)
    unfold sessionOf at hsess
    cases hserf : reg.find? (fun cs => cs.jestConfigSerialized == serializeOf r) with
    | none => rw [hserf] at hsess; cases hsess
    | some ccs =>
      rw [hserf] at hsess
      have hid : ccs.configSetId = i := by simpa using hsess
      refine ⟨{ ccs with jestConfigRef := r }, ?_, hid, rfl⟩
      unfold configsFor
      simp only [href, hserf]
      exact backpatchFirst_mem_patched reg (serializeOf r) r ccs hserf
  · intro serializeOf reg r hInv
    exact (configsFor_spec serializeOf reg r hInv).2.2.1

/-- Serialization environment used by the registry witness: objects `1`
and `3` serialize to the same form, object `2` to a different one. -/
def serializeOfW : Nat → String := fun n => if n = 2 then "Y" else "X"

/-- Registry holding one record for live object `1`. -/
def regW1 : List CachedConfigSet := [⟨1, "X", 0⟩]

/-- C2 (witness): distinct configurations get distinct sessions, a
re-serialized copy of a known configuration gets the recorded session,
the record is back-patched with the new live reference, and records
survive further resolutions. -/
theorem c2_registry_sessions_witness :
    (configsFor serializeOfW (configsFor serializeOfW [] 1).2 2).1 ≠
      (configsFor serializeOfW [] 1).1
    ∧ (configsFor serializeOfW (configsFor serializeOfW [] 1).2 3).1 =
      (configsFor serializeOfW [] 1).1
    ∧ (∃ cs ∈ (configsFor serializeOfW regW1 3).2, cs.configSetId = 0 ∧ cs.jestConfigRef = 3)
    ∧ (∃ cs2 ∈ (configsFor serializeOfW regW1 2).2,
        cs2.configSetId = (0 : Nat) ∧ cs2.jestConfigSerialized = "X") :=
  ⟨c2_registry_sessions.1 serializeOfW [] 1 2 (by unfold RegistryInv; decide) (by decide),
   c2_registry_sessions.2.1 serializeOfW [] 1 3 (by unfold RegistryInv; decide) (by decide),
   c2_registry_sessions.2.2.1 serializeOfW regW1 3 0 (by unfold RegistryInv; decide)
     (by decide) (by decide),
   by
    obtain ⟨cs2, hmem, hid, hser⟩ :=
      c2_registry_sessions.2.2.2 serializeOfW regW1 2 (by unfold RegistryInv; decide)
        ⟨1, "X", 0⟩ (by decide)
    exact ⟨cs2, hmem, hid, hser⟩⟩

/-- C8: in full-service mode, once the diagnostics phase does not abort:
emission skipped for a `.ts`/`.tsx` file throws an error naming the file;
emission skipped for any other extension returns the original content
unchanged with a logged warning naming the file; and an emit result with
no output files throws an error naming the file (by its basename). -/
theorem c8_emit_skip_handling (configs : ConfigSet) (ls : LangServiceModel)
    (cacheFS : CacheFS) (fs : FileSystem) (st st2 st3 : CompilerState)
    (fileContent fileName : String) (options : CompileOptions)
    (out : EmitOutput) (acc : List (String × List String))
    (hjs : (isJsJsx fileName &&
      !(fixupCompilerOptionsForModuleKind configs.parsedOptions
        (configs.useESM && options.supportsStaticESM)).allowJs) = false)
    (hst2 : compileEmitState configs cacheFS fs st fileContent fileName
      ((fixupCompilerOptionsForModuleKind configs.parsedOptions
        (configs.useESM && options.supportsStaticESM)).module ==
        configs.parsedOptions.module) = st2)
    (hout : ls.emit st2.fileContentCache fileName = out)
    (hraise : raisePhase configs ls cacheFS fs st2 fileName
      (configs.useESM && options.supportsStaticESM)
      (getDiagnostics configs ls st2.fileContentCache fileName) options = (none, st3, acc)) :
    (out.emitSkipped = true → isTsTsx fileName = true →
      getCompiledOutputLS configs ls cacheFS fs st fileContent fileName options =
        ⟨Except.error (CompileError.cannotProcessFile fileName), st3, acc, []⟩)
    ∧ (out.emitSkipped = true → isTsTsx fileName = false →
      getCompiledOutputLS configs ls cacheFS fs st fileContent fileName options =
        ⟨Except.ok ⟨fileContent, none⟩, st3, acc,
          ["CannotProcessFileReturnOriginal " ++ fileName]⟩)
    ∧ (out.emitSkipped = false → out.outputFiles = [] →
      getCompiledOutputLS configs ls cacheFS fs st fileContent fileName options =
        ⟨Except.error (CompileError.unableToRequireDefinitionFile (basename fileName)),
          st3, acc, []⟩) := by
  have hmain : getCompiledOutputLS configs ls cacheFS fs st fileContent fileName options =
      (if out.emitSkipped then
        if isTsTsx fileName then
          ⟨Except.error (CompileError.cannotProcessFile fileName), st3, acc, []⟩
        else
          ⟨Except.ok ⟨fileContent, none⟩, st3, acc,
            ["CannotProcessFileReturnOriginal " ++ fileName]⟩
      else if out.outputFiles.isEmpty then
        ⟨Except.error (CompileError.unableToRequireDefinitionFile (basename fileName)),
          st3, acc, []⟩
      else
        ⟨Except.ok ⟨(if (fixupCompilerOptionsForModuleKind configs.parsedOptions
              (configs.useESM && options.supportsStaticESM)).sourceMap then
            updateOutput (out.outputFiles.getD 1 "") fileName (some (out.outputFiles.getD 0 ""))
          else
            updateOutput (out.outputFiles.getD 0 "") fileName none),
          some (getDiagnostics configs ls st2.fileContentCache fileName)⟩, st3, acc, []⟩) := by
    unfold getCompiledOutputLS
    rw [if_neg (by rw [hjs]; exact Bool.false_ne_true)]
    simp only [hst2, hout, hraise]
  refine ⟨?_, ?_, ?_⟩
  · intro hskip hts
    rw [hmain, if_pos hskip, if_pos hts]
  · intro hskip hts
    rw [hmain, if_pos hskip, if_neg (by rw [hts]; exact Bool.false_ne_true)]
  · intro hskip hempty
    rw [hmain, if_neg (by rw [hskip]; exact Bool.false_ne_true),
      if_pos (by rw [hempty]; rfl)]

/-- C8 (witness): skipped emission of `/x.ts` throws an error naming it,
skipped emission of `/x.js` (allowJs on) returns the original content
with a warning, and an empty output list for `/x.ts` throws a TypeError
naming its basename. -/
theorem c8_emit_skip_handling_witness :
    getCompiledOutputLS configsCK lsSkip cfsW fsChain stEmpty "C" "/x.ts" optW =
      ⟨Except.error (CompileError.cannotProcessFile "/x.ts"), st2XTS, [], []⟩
    ∧ getCompiledOutputLS configsCK lsSkip cfsW fsChain stEmpty "J" "/x.js" optW =
      ⟨Except.ok ⟨"J", none⟩, st2XJS, [], ["CannotProcessFileReturnOriginal /x.js"]⟩
    ∧ getCompiledOutputLS configsCK lsNoOutput cfsW fsChain stEmpty "C" "/x.ts" optW =
      ⟨Except.error (CompileError.unableToRequireDefinitionFile "x.ts"), st2XTS, [], []⟩ :=
  ⟨(c8_emit_skip_handling configsCK lsSkip cfsW fsChain stEmpty st2XTS st2XTS "C" "/x.ts"
      optW ⟨true, []⟩ [] (by decide) (by decide) (by decide) (by decide)).1
      (by decide) (by decide),
   (c8_emit_skip_handling configsCK lsSkip cfsW fsChain stEmpty st2XJS st2XJS "J" "/x.js"
      optW ⟨true, []⟩ [] (by decide) (by decide) (by decide) (by decide)).2.1
      (by decide) (by decide),
   (c8_emit_skip_handling configsCK lsNoOutput cfsW fsChain stEmpty st2XTS st2XTS "C" "/x.ts"
      optW ⟨false, []⟩ [] (by decide) (by decide) (by decide) (by decide)).2.2
      (by decide) (by decide)⟩

/-- C4 (counterexample): with `/x.ts` absent from the parsed tsconfig file
list, compiling the same content twice in full-service mode increments
the project version on the second call (ts-compiler.ts:504-509 forces
`shouldIncrementProjectVersion` for files outside `fileNames`), refuting
the claim that the second identical call leaves the version counters
unchanged. -/
theorem c4_idempotence_counterexample :
    (getCompiledOutputLS configsCK lsOk cfsW fsChain stEmpty "C" "/x.ts" optW).st = st2XTS
    ∧ st2XTS.projectVersion = 2
    ∧ (getCompiledOutputLS configsCK lsOk cfsW fsChain st2XTS "C" "/x.ts" optW).st.projectVersion
      = 3 := by
  decide

/-- C4 (amended): in full-service mode, when the file is listed in the
parsed tsconfig file list, the module kind is unchanged by the ESM/CJS
fixup, the file is already cached with the same content and a non-zero
version, and the file produces no reported diagnostics, a compile call
leaves the session state — file version and project version included —
unchanged, and an immediately repeated identical call returns the
identical result. -/
theorem c4_idempotent_compile_amended (configs : ConfigSet) (ls : LangServiceModel)
    (cacheFS : CacheFS) (fs : FileSystem) (st : CompilerState)
    (fileContent fileName : String) (options : CompileOptions)
    (hjs : (isJsJsx fileName &&
      !(fixupCompilerOptionsForModuleKind configs.parsedOptions
        (configs.useESM && options.supportsStaticESM)).allowJs) = false)
    (hkind : ((fixupCompilerOptionsForModuleKind configs.parsedOptions
        (configs.useESM && options.supportsStaticESM)).module ==
        configs.parsedOptions.module) = true)
    (hfic : isFileInCache st fileName = true)
    (hcached : List.lookup fileName st.fileContentCache = some fileContent)
    (hmem : configs.parsedFileNames.contains fileName = true)
    (hdiag : getDiagnostics configs ls st.fileContentCache fileName = []) :
    (getCompiledOutputLS configs ls cacheFS fs st fileContent fileName options).st = st
    ∧ getCompiledOutputLS configs ls cacheFS fs
        (getCompiledOutputLS configs ls cacheFS fs st fileContent fileName options).st
        fileContent fileName options =
      getCompiledOutputLS configs ls cacheFS fs st fileContent fileName options := by
  have hfix : compileEmitState configs cacheFS fs st fileContent fileName
      ((fixupCompilerOptionsForModuleKind configs.parsedOptions
        (configs.useESM && options.supportsStaticESM)).module ==
        configs.parsedOptions.module) = st := by
    rw [hkind]
    unfold compileEmitState
    rw [updateMemoryCache_fixpoint configs.parsedFileNames st fileContent fileName
      hfic hcached hmem]
    exact getScriptSnapshot_fixpoint cacheFS fs st fileName hfic
  have hstate : (getCompiledOutputLS configs ls cacheFS fs st fileContent fileName options).st
      = st := by
    unfold getCompiledOutputLS
    rw [if_neg (by rw [hjs]; exact Bool.false_ne_true)]
    simp only [hfix, hdiag, raisePhase_no_diags]
    split <;> split <;> rfl
  exact ⟨hstate, by rw [hstate]⟩

/-- C4 (witness): with `/x.ts` listed in the tsconfig, a compile on the
already-warm state `st2XTS` leaves the state unchanged and repeating it
returns the identical result. -/
theorem c4_idempotent_compile_amended_witness :
    (getCompiledOutputLS configsC4 lsOk cfsW fsChain st2XTS "C" "/x.ts" optW).st = st2XTS
    ∧ getCompiledOutputLS configsC4 lsOk cfsW fsChain
        (getCompiledOutputLS configsC4 lsOk cfsW fsChain st2XTS "C" "/x.ts" optW).st
        "C" "/x.ts" optW =
      getCompiledOutputLS configsC4 lsOk cfsW fsChain st2XTS "C" "/x.ts" optW :=
  c4_idempotent_compile_amended configsC4 lsOk cfsW fsChain st2XTS "C" "/x.ts" optW
    (by decide) (by decide) (by decide) (by decide) (by decide) (by decide)

/-- C5 (counterexample): in watch mode, when the changed file `/x.ts`
itself produces an empty diagnostics list, no dependent is re-checked —
`/G.ts` records `/x.ts` in its reachable set and is selected by the
reporting policy, yet `reChecked` is empty, refuting the claim that every
such dependent is re-diagnosed on every watch-mode compile. -/
theorem c5_watch_recheck_counterexample :
    optWatch.watchMode = true
    ∧ ("/G.ts", (⟨"g", ["/x.ts"]⟩ : DepGraphInfo)) ∈ optWatch.depGraphs
    ∧ ((["/x.ts"].map pathNormalize).contains "/x.ts") = true
    ∧ configsCK.shouldReportDiagnostics "/G.ts" = true
    ∧ (getCompiledOutputLS configsCK lsOk cfsW fsChain stEmpty "C" "/x.ts" optWatch).reChecked
      = [] := by
  decide

/-- C5 (amended): in watch mode, when compiling `F` in full-service mode
yields a non-empty reported diagnostics list, ESM mode is off and the
diagnostics policy does not abort, every dependency-graph entry whose
recorded reachable set contains `F` and which the reporting policy
selects has its semantic and syntactic diagnostics recomputed and routed
through the policy during that same compile call. -/
theorem c5_watch_recheck_amended (configs : ConfigSet) (ls : LangServiceModel)
    (cacheFS : CacheFS) (fs : FileSystem) (st : CompilerState)
    (fileContent fileName : String) (options : CompileOptions)
    (hjs : (isJsJsx fileName &&
      !(fixupCompilerOptionsForModuleKind configs.parsedOptions
        (configs.useESM && options.supportsStaticESM)).allowJs) = false)
    (hnothrow : ∀ ds f, configs.raisePolicy ds f = none)
    (hesm : (configs.useESM && options.supportsStaticESM) = false)
    (hwatch : options.watchMode = true)
    (hdiag : getDiagnostics configs ls
      (compileEmitState configs cacheFS fs st fileContent fileName
        ((fixupCompilerOptionsForModuleKind configs.parsedOptions
          (configs.useESM && options.supportsStaticESM)).module ==
          configs.parsedOptions.module)).fileContentCache fileName ≠ []) :
    ∀ G info, (G, info) ∈ options.depGraphs →
      (info.resolvedModuleNames.map pathNormalize).contains fileName = true →
      configs.shouldReportDiagnostics G = true →
      ∃ ds, (G, ds) ∈
        (getCompiledOutputLS configs ls cacheFS fs st fileContent fileName options).reChecked := by
  intro G info hmem hcont hrep
  unfold getCompiledOutputLS
  rw [if_neg (by rw [hjs]; exact Bool.false_ne_true)]
  simp only []
  generalize hS : compileEmitState configs cacheFS fs st fileContent fileName
    ((fixupCompilerOptionsForModuleKind configs.parsedOptions
      (configs.useESM && options.supportsStaticESM)).module ==
      configs.parsedOptions.module) = S at hdiag ⊢
  generalize hD : getDiagnostics configs ls S.fileContentCache fileName = D at hdiag ⊢
  rcases hw : watchReCheck configs ls cacheFS fs fileName options.depGraphs S []
    with ⟨err, stW, accW⟩
  have hspec := watchReCheck_complete configs ls cacheFS fs fileName hnothrow
    options.depGraphs S []
  have herr : err = none := by
    rw [hw] at hspec
    exact hspec.1
  obtain ⟨ds, hds⟩ := hspec.2.2 G info hmem hcont hrep
  rw [hw] at hds
  refine ⟨ds, ?_⟩
  have hempty : D.isEmpty = false := by
    cases hcase : D with
    | nil => exact absurd hcase hdiag
    | cons d t => rfl
  rw [herr] at hw
  have hraise : raisePhase configs ls cacheFS fs S fileName
      (configs.useESM && options.supportsStaticESM) D options = (none, stW, accW) := by
    unfold raisePhase
    rw [hesm, hempty, hwatch]
    simp only [Bool.not_false, Bool.and_self, if_true, hnothrow]
    exact hw
  rw [hraise]
  split
  · rename_i e st3 acc heq
    injection heq with ha hb
    cases ha
  · rename_i st3 acc heq
    injection heq with ha hb
    injection hb with hb1 hb2
    subst hb1 hb2
    have hds2 : (G, ds) ∈ accW := hds
    split <;> split <;> exact hds2

/-- C5 (witness): the amended theorem applied concretely — compiling
`/x.ts`, whose diagnostics list is `[Tx]`, in watch mode re-checks the
dependent `/G.ts`. -/
theorem c5_watch_recheck_amended_witness :
    ∃ ds, ("/G.ts", ds) ∈
      (getCompiledOutputLS configsCK lsDiagW cfsW fsChain stEmpty "C" "/x.ts"
        optWatch).reChecked :=
  c5_watch_recheck_amended configsCK lsDiagW cfsW fsChain stEmpty "C" "/x.ts" optWatch
    (by decide) (fun ds f => rfl) (by decide) (by decide) (by decide)
    "/G.ts" ⟨"g", ["/x.ts"]⟩ (by decide) (by decide) (by decide)

/-- C6 (counterexample): when the user-configured stringification
predicate matches the path (the `shouldStringifyContent` check runs first,
transformer lines 217-226), a compile request for `/a.d.ts` returns the
stringified module, not empty code — refuting the claim for every
transform options. -/
theorem c6_declaration_counterexample :
    isDefinitionFile "/a.d.ts" = true
    ∧ (processWithTs configsStr compilerW transpileW optT "x" "/a.d.ts").code =
        "module.exports=" ++ stringify "x"
    ∧ (processWithTs configsStr compilerW transpileW optT "x" "/a.d.ts").code ≠ "" := by
  decide

/-- C6 (amended): provided the path is not matched by the configured
content-stringification predicate, a compile request for a path ending in
`.d.ts` returns empty code and no diagnostics, regardless of content,
compiler and options. -/
theorem c6_declaration_empty_amended (configs : ConfigSet)
    (compiler : String → String → CompiledOutput)
    (tsTranspileModule : String → Option ModuleKind → String → TranspileOut)
    (transformOptions : TransformOptions) (sourceText sourcePath : String)
    (hstr : configs.shouldStringifyContent sourcePath = false)
    (hdef : isDefinitionFile sourcePath = true) :
    processWithTs configs compiler tsTranspileModule transformOptions sourceText sourcePath =
      { code := "", diagnostics := none } := by
  unfold processWithTs
  rw [hstr, hdef]
  simp

/-- C6 (witness): the amended theorem at content `x` and path `/a.d.ts`
under a non-stringifying configuration. -/
theorem c6_declaration_empty_amended_witness :
    configsCK.shouldStringifyContent "/a.d.ts" = false
    ∧ isDefinitionFile "/a.d.ts" = true
    ∧ processWithTs configsCK compilerW transpileW optT "x" "/a.d.ts" =
      { code := "", diagnostics := none } :=
  ⟨by decide, by decide,
   c6_declaration_empty_amended configsCK compilerW transpileW optT "x" "/a.d.ts"
     (by decide) (by decide)⟩

/-- C7: `process` and `processAsync` agree — when the compile step yields
no diagnostics (absent or empty), the asynchronous entry point returns
exactly the synchronous result; when it yields a non-empty diagnostics
list, the asynchronous entry point throws an error built from those
diagnostics while the synchronous pipeline still produces a result. -/
theorem c7_process_async_agree (configs : ConfigSet)
    (compiler : String → String → CompiledOutput)
    (tsTranspileModule : String → Option ModuleKind → String → TranspileOut)
    (hook : Option (TransformedSource → Option TransformedSource))
    (transformOptions : TransformOptions) (sourceText sourcePath : String) :
    ((processWithTs configs compiler tsTranspileModule transformOptions sourceText
        sourcePath).diagnostics = none
      ∨ (processWithTs configs compiler tsTranspileModule transformOptions sourceText
        sourcePath).diagnostics = some [] →
      processAsync configs compiler tsTranspileModule hook transformOptions sourceText
        sourcePath =
        Except.ok (process configs compiler tsTranspileModule hook transformOptions
          sourceText sourcePath))
    ∧ (∀ d ds, (processWithTs configs compiler tsTranspileModule transformOptions sourceText
        sourcePath).diagnostics = some (d :: ds) →
      processAsync configs compiler tsTranspileModule hook transformOptions sourceText
        sourcePath = Except.error (d :: ds)) := by
  constructor
  · intro hdiag
    unfold processAsync process
    rcases hdiag with h | h <;> simp only [h]
  · intro d ds h
    unfold processAsync
    simp only [h]

/-- C7 (witness): with a compiler reporting a type diagnostic the
asynchronous entry point throws while the synchronous one returns; with a
clean compiler both entry points agree exactly. -/
theorem c7_process_async_agree_witness :
    processAsync configsCK compilerW transpileW none optT "c" "/x.ts" =
      Except.ok (process configsCK compilerW transpileW none optT "c" "/x.ts")
    ∧ processAsync configsCK compilerDiagW transpileW none optT "c" "/x.ts" =
      Except.error ["T2322"] :=
  ⟨(c7_process_async_agree configsCK compilerW transpileW none optT "c" "/x.ts").1
     (Or.inl (by decide)),
   (c7_process_async_agree configsCK compilerDiagW transpileW none optT "c" "/x.ts").2
     "T2322" [] (by decide)⟩

/-- C10 (counterexample): when the stringification predicate matches the
path, a JavaScript file under `node_modules` is stringified rather than
transpiled, refuting the unconditional claim. -/
theorem c10_node_modules_counterexample :
    isJsJsx "/node_modules/a.js" = true
    ∧ isNodeModule "/node_modules/a.js" = true
    ∧ (processWithTs configsStr compilerW transpileW optT "J" "/node_modules/a.js").code =
        "module.exports=" ++ stringify "J"
    ∧ (processWithTs configsStr compilerW transpileW optT "J" "/node_modules/a.js").code ≠
        updateOutput (transpileW "J" (some ModuleKind.commonjs) "/node_modules/a.js").outputText
          "/node_modules/a.js"
          (transpileW "J" (some ModuleKind.commonjs) "/node_modules/a.js").sourceMapText := by
  decide

/-- C10 (amended): provided the path is not matched by the
content-stringification predicate, a compile request for a JavaScript
file whose normalized path contains a `node_modules` segment bypasses the
session compiler entirely (the result does not depend on it) and
single-file-transpiles the content with the module kind forced to ESNext
when static ESM is supported and ESM output configured, CommonJS
otherwise, with no diagnostics. -/
theorem c10_node_modules_transpile_amended (configs : ConfigSet)
    (compiler compiler2 : String → String → CompiledOutput)
    (tsTranspileModule : String → Option ModuleKind → String → TranspileOut)
    (transformOptions : TransformOptions) (sourceText sourcePath : String)
    (hstr : configs.shouldStringifyContent sourcePath = false)
    (hjs : isJsJsx sourcePath = true)
    (hnm : isNodeModule sourcePath = true) :
    (processWithTs configs compiler tsTranspileModule transformOptions sourceText sourcePath =
      { code := updateOutput (tsTranspileModule sourceText
          (if transformOptions.supportsStaticESM && transformOptions.transformerConfigUseESM
            then some ModuleKind.esnext else some ModuleKind.commonjs) sourcePath).outputText
          sourcePath
          (tsTranspileModule sourceText
            (if transformOptions.supportsStaticESM && transformOptions.transformerConfigUseESM
              then some ModuleKind.esnext else some ModuleKind.commonjs)
            sourcePath).sourceMapText,
        diagnostics := none })
    ∧ processWithTs configs compiler tsTranspileModule transformOptions sourceText sourcePath =
      processWithTs configs compiler2 tsTranspileModule transformOptions sourceText
        sourcePath := by
  have hdef := isDefinitionFile_eq_false_of_isJsJsx sourcePath hjs
  have hmain : ∀ c : String → String → CompiledOutput,
      processWithTs configs c tsTranspileModule transformOptions sourceText sourcePath =
      { code := updateOutput (tsTranspileModule sourceText
          (if transformOptions.supportsStaticESM && transformOptions.transformerConfigUseESM
            then some ModuleKind.esnext else some ModuleKind.commonjs) sourcePath).outputText
          sourcePath
          (tsTranspileModule sourceText
            (if transformOptions.supportsStaticESM && transformOptions.transformerConfigUseESM
              then some ModuleKind.esnext else some ModuleKind.commonjs)
            sourcePath).sourceMapText,
        diagnostics := none } := by
    intro c
    unfold processWithTs
    rw [hstr, hdef, hjs, hnm]
    simp
  exact ⟨hmain compiler, by rw [hmain compiler, hmain compiler2]⟩

/-- C10 (witness): the amended theorem applied to `/node_modules/a.js`
under a non-stringifying configuration with ESM off (module kind forced
to CommonJS) — the result equals the transpiler output for both abstract
compilers. -/
theorem c10_node_modules_transpile_amended_witness :
    (processWithTs configsCK compilerW transpileW optT "J" "/node_modules/a.js" =
      { code := updateOutput (transpileW "J"
          (if optT.supportsStaticESM && optT.transformerConfigUseESM
            then some ModuleKind.esnext else some ModuleKind.commonjs)
          "/node_modules/a.js").outputText "/node_modules/a.js"
          (transpileW "J"
            (if optT.supportsStaticESM && optT.transformerConfigUseESM
              then some ModuleKind.esnext else some ModuleKind.commonjs)
            "/node_modules/a.js").sourceMapText,
        diagnostics := none })
    ∧ processWithTs configsCK compilerW transpileW optT "J" "/node_modules/a.js" =
      processWithTs configsCK compilerDiagW transpileW optT "J" "/node_modules/a.js" :=
  c10_node_modules_transpile_amended configsCK compilerW compilerDiagW transpileW optT
    "J" "/node_modules/a.js" (by decide) (by decide) (by decide)

end TsJest
